import Mathlib

/-!
Verification development for the `kalshi_pipeline` trading bot.

Python source files are shallowly embedded: Python floats are modelled as
exact rationals (`ℚ`), Python ints as `ℤ`, `None`-able values as `Option`,
and dictionaries as association lists or lookup functions.  Each definition
mirrors one function of the source tree; the doc comment names it.
-/

namespace KalshiProofs

/-- Python `int(x)` on a real value: truncation toward zero. -/
def pyTrunc (q : ℚ) : ℤ :=
  if q < 0 then Int.ceil q else Int.floor q

/-- Python `str.strip()`: drop whitespace from both ends. -/
def pyStrip (s : String) : String :=
  ⟨((s.data.dropWhile Char.isWhitespace).reverse.dropWhile Char.isWhitespace).reverse⟩

/-- Python `str.upper()` on the ASCII tickers the pipeline handles. -/
def pyUpper (s : String) : String := ⟨s.data.map Char.toUpper⟩

/-- Python `str.lower()` on the ASCII side names the pipeline handles. -/
def pyLower (s : String) : String := ⟨s.data.map Char.toLower⟩

namespace Risk

/-- Embedding of `kelly_fraction` (src/kalshi_pipeline/risk.py lines 7-22).
`model_prob` is clamped to `[0,1]`, the price to `[1,99]`; any side string
other than `"yes"` takes the `else` (no-side) branch, as in the source. -/
def kelly_fraction (model_prob : ℚ) (market_price_cents : ℤ) (side : String) : ℚ :=
  let p : ℚ := max 0 (min 1 model_prob)
  let price : ℤ := max 1 (min 99 market_price_cents)
  let win : ℤ := if side = "yes" then 100 - price else price
  let loss : ℤ := if side = "yes" then price else 100 - price
  let edge : ℚ :=
    if side = "yes" then p * (win : ℚ) - (1 - p) * (loss : ℚ)
    else (1 - p) * (win : ℚ) - p * (loss : ℚ)
  if win ≤ 0 ∨ edge ≤ 0 then 0 else edge / (win : ℚ)

/-- Claim-side restatement of the Kelly rule, written from the spec's words
(clamp price to `[1,99]`, clamp `model_prob` to `[0,1]`, `win`/`loss` per
side, return `0` on non-positive edge or win, else `edge/win`).  Compared
against the source embedding `kelly_fraction`. -/
def kellyFractionClaim (model_prob : ℚ) (market_price_cents : ℤ) (side : String) : ℚ :=
  let price : ℤ := max 1 (min 99 market_price_cents)
  let p : ℚ := max 0 (min 1 model_prob)
  let win : ℤ := if side = "yes" then 100 - price else price
  let loss : ℤ := if side = "yes" then price else 100 - price
  let edge : ℚ :=
    if side = "yes" then p * (win : ℚ) - (1 - p) * (loss : ℚ)
    else (1 - p) * (win : ℚ) - p * (loss : ℚ)
  if edge ≤ 0 ∨ win ≤ 0 then 0 else edge / (win : ℚ)

/-- The settings fields consumed by `compute_order_size`
(src/kalshi_pipeline/config.py; `kelly_fraction_scale` is clamped to
`[0,1]` by the settings loader). -/
structure Settings where
  paper_trade_sizing_mode : String
  paper_trade_contract_count : ℤ
  paper_trade_default_fill_probability : ℚ
  kelly_fraction_scale : ℚ
  paper_trade_max_position_dollars : ℚ
  paper_trade_max_portfolio_exposure_dollars : ℚ

/-- The two fields of `SignalRecord` that `compute_order_size` reads. -/
structure SignalInfo where
  model_probability : Option ℚ
  confidence : Option ℚ

/-- `bankroll_dollars` normalization at the head of `compute_order_size`
(risk.py lines 40-41): a missing or non-positive bankroll is replaced by
the configured max portfolio exposure. -/
def effectiveBankroll (bankroll_dollars : Option ℚ) (settings : Settings) : ℚ :=
  match bankroll_dollars with
  | none => settings.paper_trade_max_portfolio_exposure_dollars
  | some b =>
      if b ≤ 0 then settings.paper_trade_max_portfolio_exposure_dollars else b

/-- The Kelly-sized dollar target before the position and portfolio caps
(risk.py line 63): `bankroll * kelly * kelly_fraction_scale * confidence`,
where `kelly` has already been scaled by the fill probability. -/
def kellyTargetDollars (bankroll kelly scale confidence : ℚ) : ℚ :=
  bankroll * kelly * scale * confidence

/-- Embedding of `compute_order_size` (src/kalshi_pipeline/risk.py lines
25-76). -/
def compute_order_size (signal : SignalInfo) (side : String) (market_price_cents : ℤ)
    (settings : Settings) (current_exposure_dollars : ℚ)
    (bankroll_dollars : Option ℚ) (fill_probability : Option ℚ) : ℤ :=
  match signal.model_probability with
  | none => 0
  | some model_prob =>
    let confidence : ℚ := max 0 (min 1 (signal.confidence.getD 0))
    let bankroll : ℚ := effectiveBankroll bankroll_dollars settings
    if settings.paper_trade_sizing_mode = "fixed" then
      settings.paper_trade_contract_count
    else
      let kelly := kelly_fraction model_prob market_price_cents side
      if kelly ≤ 0 then 0
      else
        let fill_prob : ℚ :=
          max 0 (min 1 (fill_probability.getD settings.paper_trade_default_fill_probability))
        let kelly2 := kelly * fill_prob
        if kelly2 ≤ 0 then 0
        else
          let target1 :=
            kellyTargetDollars bankroll kelly2 settings.kelly_fraction_scale confidence
          let target2 := min target1 settings.paper_trade_max_position_dollars
          let remaining :=
            max 0 (settings.paper_trade_max_portfolio_exposure_dollars
              - current_exposure_dollars)
          let target := min target2 remaining
          if target ≤ 0 then 0
          else
            let contract_cost : ℚ := (market_price_cents : ℚ) / 100
            if contract_cost ≤ 0 then 0
            else
              let contracts := pyTrunc (target / contract_cost)
              if 0 < contracts then max 1 contracts else 0

end Risk

/-- Stable insertion of a price level into a price-sorted list: the new row
goes after existing rows with an equal key, matching Python's stable sort. -/
def insertByPrice (descending : Bool) (row : ℤ × ℤ) : List (ℤ × ℤ) → List (ℤ × ℤ)
  | [] => [row]
  | head :: tail =>
      if (if descending then head.1 < row.1 else row.1 < head.1) then row :: head :: tail
      else head :: insertByPrice descending row tail

/-- Stable sort of price levels by price (Python `list.sort(key=price)`,
with `reverse=True` when `descending`). -/
def sortByPrice (descending : Bool) (levels : List (ℤ × ℤ)) : List (ℤ × ℤ) :=
  levels.foldl (fun acc row => insertByPrice descending row acc) []

/-- An order book for one market: YES-side and NO-side levels as
`(price_cents, quantity)` rows.  Rows of the raw JSON that fail integer
parsing are dropped by the source before any use, so the embedding takes
already-parsed integer pairs. -/
structure Book where
  yes : List (ℤ × ℤ)
  no : List (ℤ × ℤ)

namespace PaperTrading

/-- The best-book price record handed to `_maker_price_for_side`
(src/kalshi_pipeline/paper_trading.py: the dict built by
`_best_book_prices`). -/
structure BookPrices where
  yes_bid : Option ℤ
  yes_ask : Option ℤ
  no_bid : Option ℤ
  no_ask : Option ℤ

/-- Embedding of `_maker_price_for_side` (src/kalshi_pipeline/paper_trading.py
lines 71-110). -/
def makerPriceForSide (side : String) (book : BookPrices) (maker_only : Bool)
    (min_price_cents max_price_cents : ℤ) : Option ℤ :=
  let bid := if side = "yes" then book.yes_bid else book.no_bid
  let ask := if side = "yes" then book.yes_ask else book.no_ask
  if bid = none ∧ ask = none then none
  else if maker_only = false then
    match (if ask ≠ none then ask else bid) with
    | none => none
    | some raw_price => some (max min_price_cents (min max_price_cents raw_price))
  else
    match bid with
    | none => none
    | some b =>
      match ask with
      | none => some (max min_price_cents (min max_price_cents b))
      | some a =>
        let maker_ceiling : ℤ := if a ≤ b then b else if a - b ≤ 1 then b else a - 1
        let preferred := min (b + 1) maker_ceiling
        let clamped := max min_price_cents (min max_price_cents preferred)
        if maker_ceiling < clamped then none else some clamped

end PaperTrading

namespace BracketArb

/-- `KalshiFeeCalculator.taker_fee` (src/kalshi_pipeline/signals/bracket_arb.py
lines 23-27): clamp the price to `[1,99]` cents, `fee_dollars =
0.07 * p * (1 - p)`, return `max(1, int(fee_dollars * 100 + 0.999))`. -/
def takerFee (price_cents : ℤ) : ℤ :=
  let p : ℚ := ((max 1 (min 99 price_cents) : ℤ) : ℚ) / 100
  let fee_dollars : ℚ := (7 / 100) * p * (1 - p)
  max 1 (pyTrunc (fee_dollars * 100 + 999 / 1000))

/-- `KalshiFeeCalculator.maker_fee` (bracket_arb.py lines 29-31). -/
def makerFee (_price_cents : ℤ) : ℤ := 0

/-- Claim-side restatement of the taker fee, written from the spec's
words: `max(1, ceil(7 * p * (1 - p)))` cents with
`p = clamp(price_cents, 1, 99) / 100`.  Compared against the source
embedding `takerFee`. -/
def takerFeeClaim (price_cents : ℤ) : ℤ :=
  let p : ℚ := ((max 1 (min 99 price_cents) : ℤ) : ℚ) / 100
  max 1 (Int.ceil (7 * p * (1 - p)))

/-- `_normalize_levels` (bracket_arb.py lines 34-56): keep rows with
positive quantity, sorted by price descending (stable). -/
def normalizeLevels (raw_levels : List (ℤ × ℤ)) : List (ℤ × ℤ) :=
  sortByPrice true (raw_levels.filter (fun row => 0 < row.2))

/-- `_best_bid_and_depth` (bracket_arb.py lines 59-67): best price is the
head of the descending-sorted levels; depth sums the quantity at exactly
that price. -/
def bestBidAndDepth (raw_levels : List (ℤ × ℤ)) : Option (ℤ × ℤ) :=
  match normalizeLevels raw_levels with
  | [] => none
  | (best_price, _) :: _ =>
      let levels := normalizeLevels raw_levels
      let depth := ((levels.filter (fun row => row.1 = best_price)).map Prod.snd).sum
      if depth ≤ 0 then none else some (best_price, depth)

/-- One leg of a bracket-arbitrage opportunity (the per-leg dict built by
the candidate scanners). -/
structure Leg where
  ticker : String
  side : String
  price_cents : ℤ
  depth : ℤ
deriving DecidableEq

/-- `BracketArbOpportunity` (bracket_arb.py lines 8-19); the `detected_at`
timestamp, which is just threaded through, is omitted. -/
structure Opportunity where
  event_ticker : String
  arb_type : String
  legs : List Leg
  cost_cents : ℤ
  payout_cents : ℤ
  profit_cents : ℤ
  max_sets : ℤ
  total_profit_cents : ℤ
  profit_after_fees_cents : ℤ
deriving DecidableEq

/-- The per-ticker loop shared by `_all_yes_candidate` and
`_all_no_candidate` (bracket_arb.py lines 82-102 and 143-163): for each
ticker, require a book and a best bid on the opposite side (`no` for
all-YES legs, `yes` for all-NO legs); the leg price is
`clamp(100 - bid, 1, 99)`; accumulate cost, taker fees and minimum depth. -/
def gatherLegs (orderbooks : String → Option Book) (buy_yes : Bool) :
    List String → Option (List Leg × ℤ × ℤ × Option ℤ)
  | [] => some ([], 0, 0, none)
  | ticker :: rest =>
      match orderbooks ticker with
      | none => none
      | some orderbook =>
          match bestBidAndDepth (if buy_yes then orderbook.no else orderbook.yes) with
          | none => none
          | some (bid, depth) =>
              let price : ℤ := max 1 (min 99 (100 - bid))
              match gatherLegs orderbooks buy_yes rest with
              | none => none
              | some (legs, cost, fees, min_depth) =>
                  some ({ ticker := ticker, side := if buy_yes then "yes" else "no",
                          price_cents := price, depth := depth } :: legs,
                        price + cost, takerFee price + fees,
                        some (match min_depth with
                              | none => depth
                              | some d => min depth d))

/-- `_all_yes_candidate` (bracket_arb.py lines 70-125). -/
def allYesCandidate (event_ticker : String) (bracket_tickers : List String)
    (orderbooks : String → Option Book) : Option Opportunity :=
  match gatherLegs orderbooks true bracket_tickers with
  | none => none
  | some (legs, total_cost, total_fees, min_depth) =>
      let payout : ℤ := 100
      if payout ≤ total_cost then none
      else
        let max_sets : ℤ := max 0 (min_depth.getD 0)
        if max_sets ≤ 0 then none
        else
          let profit_cents := payout - total_cost
          let profit_after_fees_per_set := profit_cents - total_fees
          if profit_after_fees_per_set ≤ 0 then none
          else some { event_ticker := event_ticker, arb_type := "all_yes", legs := legs,
                      cost_cents := total_cost, payout_cents := payout,
                      profit_cents := profit_cents, max_sets := max_sets,
                      total_profit_cents := profit_cents * max_sets,
                      profit_after_fees_cents := profit_after_fees_per_set * max_sets }

/-- `_all_no_candidate` (bracket_arb.py lines 128-186). -/
def allNoCandidate (event_ticker : String) (bracket_tickers : List String)
    (orderbooks : String → Option Book) : Option Opportunity :=
  if bracket_tickers.length < 2 then none
  else
    match gatherLegs orderbooks false bracket_tickers with
    | none => none
    | some (legs, total_cost, total_fees, min_depth) =>
        let payout : ℤ := (bracket_tickers.length - 1) * 100
        if payout ≤ total_cost then none
        else
          let max_sets : ℤ := max 0 (min_depth.getD 0)
          if max_sets ≤ 0 then none
          else
            let profit_cents := payout - total_cost
            let profit_after_fees_per_set := profit_cents - total_fees
            if profit_after_fees_per_set ≤ 0 then none
            else some { event_ticker := event_ticker, arb_type := "all_no", legs := legs,
                        cost_cents := total_cost, payout_cents := payout,
                        profit_cents := profit_cents, max_sets := max_sets,
                        total_profit_cents := profit_cents * max_sets,
                        profit_after_fees_cents := profit_after_fees_per_set * max_sets }

/-- Stable descending insertion by `profit_after_fees_cents`, matching the
`valid.sort(key=..., reverse=True)` call in `scan_bracket_arbitrage`. -/
def insertByProfit (opp : Opportunity) : List Opportunity → List Opportunity
  | [] => [opp]
  | head :: tail =>
      if head.profit_after_fees_cents < opp.profit_after_fees_cents then opp :: head :: tail
      else head :: insertByProfit opp tail

/-- `scan_bracket_arbitrage` (bracket_arb.py lines 189-228), with the
default `KalshiFeeCalculator`. -/
def scanBracketArbitrage (event_ticker : String) (bracket_tickers : List String)
    (orderbooks : String → Option Book) (min_profit_after_fees_cents : ℤ) :
    Option Opportunity :=
  let tickers := bracket_tickers.filterMap
    (fun t => if pyStrip t = "" then none else some (pyUpper (pyStrip t)))
  if tickers.length < 2 then none
  else
    let candidates := [allYesCandidate event_ticker tickers orderbooks,
                       allNoCandidate event_ticker tickers orderbooks]
    let valid := (candidates.filterMap id).filter
      (fun c => min_profit_after_fees_cents < c.profit_after_fees_cents)
    match valid.foldl (fun acc c => insertByProfit c acc) [] with
    | [] => none
    | best :: _ => some best

end BracketArb

namespace OrderbookUtils

/-- `normalize_levels` (src/kalshi_pipeline/orderbook_utils.py lines 6-31):
keep rows with positive quantity, preserving order (no sort here). -/
def normalize_levels (levels : List (ℤ × ℤ)) : List (ℤ × ℤ) :=
  levels.filter (fun row => 0 < row.2)

/-- The fill loop of `compute_vwap` (orderbook_utils.py lines 43-53):
walk the sorted levels, skipping non-positive quantities, filling
`min(qty, remaining)` until the target is exhausted; returns
`(total_cost, filled)`. -/
def vwapFill : List (ℤ × ℤ) → ℤ → ℤ × ℤ
  | [], _ => (0, 0)
  | (price, qty) :: rest, remaining =>
      if qty ≤ 0 then vwapFill rest remaining
      else if remaining ≤ 0 then (0, 0)
      else
        let fill := min qty remaining
        let next := vwapFill rest (remaining - fill)
        (price * fill + next.1, fill + next.2)

/-- Specification-side companion of `vwapFill`: the `(price, fill_qty)`
pairs the loop actually consumes. -/
def vwapConsumed : List (ℤ × ℤ) → ℤ → List (ℤ × ℤ)
  | [], _ => []
  | (price, qty) :: rest, remaining =>
      if qty ≤ 0 then vwapConsumed rest remaining
      else if remaining ≤ 0 then []
      else
        let fill := min qty remaining
        (price, fill) :: vwapConsumed rest (remaining - fill)

/-- `compute_vwap` (orderbook_utils.py lines 34-56). -/
def compute_vwap (price_levels : List (ℤ × ℤ)) (target_qty : ℤ)
    (ascending : Bool) : Option (ℚ × ℤ) :=
  if target_qty ≤ 0 then none
  else
    let sorted_levels := sortByPrice (!ascending) price_levels
    let result := vwapFill sorted_levels target_qty
    if result.2 ≤ 0 then none
    else some (((result.1 : ℚ)) / ((result.2 : ℚ)), result.2)

/-- `effective_yes_ask_vwap` (orderbook_utils.py lines 59-64): complement
the NO side into effective YES asks and fill ascending. -/
def effective_yes_ask_vwap (orderbook : Book) (qty : ℤ) : Option (ℚ × ℤ) :=
  let no_levels := normalize_levels orderbook.no
  if no_levels = [] then none
  else compute_vwap (no_levels.map (fun row => (100 - row.1, row.2))) qty true

/-- `effective_no_ask_vwap` (orderbook_utils.py lines 67-72). -/
def effective_no_ask_vwap (orderbook : Book) (qty : ℤ) : Option (ℚ × ℤ) :=
  let yes_levels := normalize_levels orderbook.yes
  if yes_levels = [] then none
  else compute_vwap (yes_levels.map (fun row => (100 - row.1, row.2))) qty true

end OrderbookUtils

namespace EdgeMonitor

/-- An open-position row as read by `build_edge_decay_alerts`
(src/kalshi_pipeline/signals/edge_monitor.py): the `market_ticker` and
`side` string fields. -/
structure Position where
  market_ticker : String
  side : String
deriving DecidableEq

/-- A current-signal row as read by `build_edge_decay_alerts`:
`market_ticker` (rows with a missing ticker are dropped from the lookup),
`direction` (default `"flat"`), `edge_bps` (default `0`). -/
structure SignalRow where
  market_ticker : Option String
  direction : String
  edge_bps : Option ℚ
deriving DecidableEq

/-- One emitted alert.  The source formats each alert into an f-string;
the embedding keeps the interpolated values structurally (the formatting
is injective in them). -/
inductive Alert where
  | noSignal (ticker : String)
  | flipped (ticker : String) (side : String) (direction : String) (edge_bps : ℚ)
  | decayed (ticker : String) (edge_bps : ℚ) (threshold : ℤ)
deriving DecidableEq

/-- The market ticker an alert message names. -/
def Alert.aboutTicker : Alert → String
  | .noSignal t => t
  | .flipped t _ _ _ => t
  | .decayed t _ _ => t

/-- The `signal_by_ticker` dict comprehension (edge_monitor.py lines
10-14): later rows overwrite earlier ones, so lookup returns the last row
with the given ticker. -/
def signalByTicker (current_signals : List SignalRow) (t : String) : Option SignalRow :=
  (current_signals.filter (fun s => s.market_ticker = some t)).getLast?

/-- Whether some open position contributes `side` for ticker `t` to the
`sides_by_ticker` map (edge_monitor.py lines 15-23): empty tickers and
sides other than yes/no are skipped. -/
def hasSide (open_positions : List Position) (t side : String) : Bool :=
  open_positions.any
    (fun p => p.market_ticker = t && p.market_ticker ≠ "" && pyLower p.side = side)

/-- `hedged_tickers` membership (edge_monitor.py line 24): both yes and no
sides open. -/
def hedged (open_positions : List Position) (t : String) : Bool :=
  hasSide open_positions t "yes" && hasSide open_positions t "no"

/-- One iteration of the position loop (edge_monitor.py lines 28-62).
State is `(alerts, no_signal_notified)`. -/
def edgeDecayStep (current_signals : List SignalRow) (threshold : ℤ)
    (active_market_tickers : Option (List String)) (hedgedTickers : String → Bool)
    (state : List Alert × List String) (p : Position) : List Alert × List String :=
  let (alerts, notified) := state
  let t := p.market_ticker
  let side := pyLower p.side
  if t = "" ∨ (side ≠ "yes" ∧ side ≠ "no") then state
  else if hedgedTickers t then state
  else
    match signalByTicker current_signals t with
    | none =>
        if (match active_market_tickers with
            | some active => !(active.contains t)
            | none => false) = true then state
        else if t ∈ notified then state
        else (alerts ++ [Alert.noSignal t], notified ++ [t])
    | some s =>
        let direction := s.direction
        let edge : ℚ := s.edge_bps.getD 0
        let expected := if side = "yes" then "buy_yes" else "buy_no"
        if (direction = "buy_yes" ∨ direction = "buy_no") ∧ direction ≠ expected then
          (alerts ++ [Alert.flipped t side direction edge], notified)
        else if |edge| < (threshold : ℚ) then
          (alerts ++ [Alert.decayed t edge threshold], notified)
        else state

/-- `build_edge_decay_alerts` (edge_monitor.py lines 3-63). -/
def build_edge_decay_alerts (open_positions : List Position)
    (current_signals : List SignalRow) (edge_decay_alert_threshold_bps : ℤ)
    (active_market_tickers : Option (List String)) : List Alert :=
  (open_positions.foldl
    (edgeDecayStep current_signals edge_decay_alert_threshold_bps
      active_market_tickers (hedged open_positions))
    ([], [])).1

end EdgeMonitor

namespace KalshiFeed

/-- A side of an in-memory order book: the Python `dict[int, int]` of
price → quantity, as an association list in insertion order. -/
def bookGet (book : List (ℤ × ℤ)) (price : ℤ) : ℤ :=
  match book.find? (fun row => row.1 = price) with
  | some row => row.2
  | none => 0

/-- `side_book[price] = qty`: overwrite in place, or append a new key. -/
def bookSet (book : List (ℤ × ℤ)) (price qty : ℤ) : List (ℤ × ℤ) :=
  if book.any (fun row => row.1 = price) then
    book.map (fun row => if row.1 = price then (price, qty) else row)
  else book ++ [(price, qty)]

/-- `side_book.pop(price, None)`. -/
def bookPop (book : List (ℤ × ℤ)) (price : ℤ) : List (ℤ × ℤ) :=
  book.filter (fun row => row.1 ≠ price)

/-- One level of an orderbook-delta message, already integer-parsed (the
source skips levels whose fields fail `int(...)`): a relative `delta`, or
an absolute `quantity` when no delta is given. -/
structure DeltaLevel where
  price : ℤ
  delta : Option ℤ
  quantity : Option ℤ
deriving DecidableEq

/-- The per-level body of `_handle_orderbook_delta`
(src/kalshi_pipeline/ws/kalshi_feed.py lines 136-163). -/
def applyDeltaLevel (book : List (ℤ × ℤ)) (lvl : DeltaLevel) : List (ℤ × ℤ) :=
  match lvl.delta with
  | some d =>
      let new_qty := bookGet book lvl.price + d
      if new_qty ≤ 0 then bookPop book lvl.price else bookSet book lvl.price new_qty
  | none =>
      match lvl.quantity with
      | some q => if q ≤ 0 then bookPop book lvl.price else bookSet book lvl.price q
      | none => book

/-- Apply all levels of one side of a delta message, in order. -/
def applyDeltaLevels (book : List (ℤ × ℤ)) (levels : List DeltaLevel) : List (ℤ × ℤ) :=
  levels.foldl applyDeltaLevel book

/-- The per-ticker order-book state kept by `KalshiFeed` (kalshi_feed.py
lines 37-39). -/
structure BookState where
  yes : List (ℤ × ℤ)
  no : List (ℤ × ℤ)
  seq : Option ℤ
  best_yes_bid : Option ℤ
  best_yes_ask : Option ℤ
deriving DecidableEq

/-- The defaultdict initial state for an unseen ticker. -/
def emptyBookState : BookState :=
  { yes := [], no := [], seq := none, best_yes_bid := none, best_yes_ask := none }

/-- An orderbook-delta message (the fields `_handle_orderbook_delta`
reads). -/
structure DeltaMsg where
  market_ticker : String
  yes : List DeltaLevel
  no : List DeltaLevel
  seq : Option ℤ
deriving DecidableEq

/-- Maximum key of a book side (`max(book.keys())` when non-empty). -/
def keysMax (book : List (ℤ × ℤ)) : Option ℤ :=
  book.foldl
    (fun acc row =>
      match acc with
      | none => some row.1
      | some m => some (max m row.1))
    none

/-- `_refresh_best_prices` (kalshi_feed.py lines 195-203). -/
def refreshBest (s : BookState) : BookState :=
  let yes_bid := keysMax s.yes
  let no_bid := keysMax s.no
  let yes_ask := match no_bid with
                 | none => none
                 | some nb => some (100 - nb)
  { s with best_yes_bid := yes_bid, best_yes_ask := yes_ask }

/-- `_handle_orderbook_delta` (kalshi_feed.py lines 125-165) acting on the
per-ticker state map.  Note the source contains no comparison of the
message `seq` against the stored `seq`: levels are applied and the stored
`seq` is overwritten unconditionally. -/
def handleOrderbookDelta (books : String → BookState) (msg : DeltaMsg) :
    String → BookState :=
  let ticker := pyStrip msg.market_ticker
  if ticker = "" then books
  else fun t =>
    if t = ticker then
      let s := books t
      refreshBest { s with
        yes := applyDeltaLevels s.yes msg.yes,
        no := applyDeltaLevels s.no msg.no,
        seq := msg.seq }
    else books t

end KalshiFeed

namespace WeatherCollector

/-- A proleptic-Gregorian calendar date. -/
structure CivilDate where
  year : ℤ
  month : ℤ
  day : ℤ
deriving DecidableEq

/-- Days since 1970-01-01 of a civil date (standard era-based civil
calendar conversion). -/
def daysFromCivil (d : CivilDate) : ℤ :=
  let y := if d.month ≤ 2 then d.year - 1 else d.year
  let era := Int.fdiv y 400
  let yoe := y - era * 400
  let mp := if 2 < d.month then d.month - 3 else d.month + 9
  let doy := Int.fdiv (153 * mp + 2) 5 + d.day - 1
  let doe := yoe * 365 + Int.fdiv yoe 4 - Int.fdiv yoe 100 + doy
  era * 146097 + doe - 719468

/-- Inverse of `daysFromCivil`. -/
def civilFromDays (z0 : ℤ) : CivilDate :=
  let z := z0 + 719468
  let era := Int.fdiv z 146097
  let doe := z - era * 146097
  let yoe := Int.fdiv (doe - Int.fdiv doe 1460 + Int.fdiv doe 36524 - Int.fdiv doe 146096) 365
  let y := yoe + era * 400
  let doy := doe - (365 * yoe + Int.fdiv yoe 4 - Int.fdiv yoe 100)
  let mp := Int.fdiv (5 * doy + 2) 153
  let day := doy - Int.fdiv (153 * mp + 2) 5 + 1
  let month := if mp < 10 then mp + 3 else mp - 9
  ⟨if month ≤ 2 then y + 1 else y, month, day⟩

/-- Day of week of a day number; `0` is Sunday (1970-01-01 was a
Thursday). -/
def weekday (days : ℤ) : ℤ := Int.emod (days + 4) 7

/-- First Sunday on or after the given day number. -/
def nextSundayOnOrAfter (days : ℤ) : ℤ := days + Int.emod (7 - weekday days) 7

/-- Day number of the second Sunday of March (first Sunday on or after
March 8). -/
def secondSundayMarch (year : ℤ) : ℤ :=
  nextSundayOnOrAfter (daysFromCivil ⟨year, 3, 8⟩)

/-- Day number of the first Sunday of November. -/
def firstSundayNovember (year : ℤ) : ℤ :=
  nextSundayOnOrAfter (daysFromCivil ⟨year, 11, 1⟩)

/-- A time zone, modelling the `zoneinfo.ZoneInfo` behaviour the collector
uses: a DST predicate on wall-clock datetimes (minutes since 1970-01-01
00:00 wall time) and the two UTC offsets. -/
structure TimeZoneModel where
  isDstWall : ℤ → Bool
  stdOffsetMinutes : ℤ
  dstOffsetMinutes : ℤ

/-- UTC offset (minutes) the zone assigns to a wall-clock datetime. -/
def TimeZoneModel.offsetAt (tz : TimeZoneModel) (wall : ℤ) : ℤ :=
  if tz.isDstWall wall then tz.dstOffsetMinutes else tz.stdOffsetMinutes

/-- The instant (minutes UTC) of an aware local datetime; Python compares
aware datetimes by instant. -/
def TimeZoneModel.instant (tz : TimeZoneModel) (wall : ℤ) : ℤ :=
  wall - tz.offsetAt wall

/-- `datetime.combine(date, time(hour, minute))` as wall-clock minutes. -/
def combine (d : CivilDate) (hour minute : ℤ) : ℤ :=
  daysFromCivil d * 1440 + hour * 60 + minute

/-- `_is_dst` (src/kalshi_pipeline/collectors/weather.py lines 59-62):
probe the zone's DST flag at noon of the target date. -/
def isDst (target_date : CivilDate) (tz : TimeZoneModel) : Bool :=
  tz.isDstWall (combine target_date 12 0)

/-- `_measurement_window` (collectors/weather.py lines 65-73): a pair of
wall-clock datetimes in the zone.  `start + timedelta(days=1)` adds one
day of wall-clock time, as Python aware-datetime arithmetic does. -/
def measurementWindow (target_date : CivilDate) (tz : TimeZoneModel) : ℤ × ℤ :=
  if isDst target_date tz then
    (combine target_date 1 0, combine target_date 1 0 + 1440)
  else
    (combine target_date 0 0, combine target_date 0 0 + 1440)

/-- `_extract_daily_max` (collectors/weather.py lines 76-94).  ISO-8601
parsing of the hourly time strings is abstracted: each entry is the parsed
naive wall-clock time localized to the zone (`none` when parsing fails),
and each temperature is `none` when `_as_float` fails.  The half-open
window check `start <= local_dt < end` compares aware datetimes, hence
instants. -/
def extractDailyMax (tz : TimeZoneModel) (target_date : CivilDate)
    (hourly_values : List (Option ℚ)) (hourly_times : List (Option ℤ)) : Option ℚ :=
  let window := measurementWindow target_date tz
  (List.zip hourly_values hourly_times).foldl
    (fun max_temp entry =>
      match entry.2 with
      | none => max_temp
      | some wall =>
          if tz.instant window.1 ≤ tz.instant wall ∧ tz.instant wall < tz.instant window.2 then
            match entry.1 with
            | none => max_temp
            | some temp =>
                match max_temp with
                | none => some temp
                | some m => if m < temp then some temp else max_temp
          else max_temp)
    none

/-- The temperatures of the samples falling inside the measurement window
(specification-side helper for stating what `extractDailyMax` ranges
over). -/
def windowTemps (tz : TimeZoneModel) (target_date : CivilDate)
    (hourly_values : List (Option ℚ)) (hourly_times : List (Option ℤ)) : List ℚ :=
  let window := measurementWindow target_date tz
  (List.zip hourly_values hourly_times).filterMap
    (fun entry =>
      match entry.2 with
      | none => none
      | some wall =>
          if tz.instant window.1 ≤ tz.instant wall ∧ tz.instant wall < tz.instant window.2 then
            entry.1
          else none)

/-- Fold a maximum over a list of temperatures, first value seeding. -/
def maxOfTemps (temps : List ℚ) : Option ℚ :=
  temps.foldl
    (fun acc temp =>
      match acc with
      | none => some temp
      | some m => if m < temp then some temp else some m)
    none

/-- America/New_York, as `zoneinfo` resolves it in the post-2007 era the
pipeline runs in: DST from 02:00 local on the second Sunday of March to
02:00 local on the first Sunday of November; offsets UTC-5 / UTC-4. -/
def nyIsDstWall (wall : ℤ) : Bool :=
  let d := civilFromDays (Int.fdiv wall 1440)
  let start := secondSundayMarch d.year * 1440 + 120
  let stop := firstSundayNovember d.year * 1440 + 120
  start ≤ wall ∧ wall < stop

/-- The `ZoneInfo("America/New_York")` instance of the model. -/
def americaNewYork : TimeZoneModel :=
  { isDstWall := nyIsDstWall, stdOffsetMinutes := -300, dstOffsetMinutes := -240 }

end WeatherCollector

/-- Order books of the concrete two-bracket all-YES arbitrage scenario
(NO bids 70 and 68, hence YES asks 30 and 32). -/
def bracketArbWitnessBooks : String → Option Book := fun t =>
  if t = "A" then some ⟨[], [(70, 50)]⟩
  else if t = "B" then some ⟨[], [(68, 60)]⟩
  else none

/-- The opportunity `scan_bracket_arbitrage` finds in that scenario. -/
def bracketArbWitnessOpp : BracketArb.Opportunity :=
  { event_ticker := "EV", arb_type := "all_yes",
    legs := [⟨"A", "yes", 30, 50⟩, ⟨"B", "yes", 32, 60⟩],
    cost_cents := 62, payout_cents := 100, profit_cents := 38,
    max_sets := 50, total_profit_cents := 1900,
    profit_after_fees_cents := 1700 }

/-! ## Claim theorems -/

/-- C1: for every model probability, market price and side in {yes, no},
`kelly_fraction` clamps the price to `[1,99]` and the probability to
`[0,1]`, returns `0` when the side's edge is non-positive or the win is
non-positive, and `edge/win` otherwise; in particular
`(0.6, 50¢, yes) ↦ 0.2` and `(0.5, 50¢) ↦ 0` on both sides. -/
theorem claim_C1_kelly_fraction :
    (∀ (model_prob : ℚ) (market_price_cents : ℤ) (side : String),
        side = "yes" ∨ side = "no" →
        Risk.kelly_fraction model_prob market_price_cents side =
          Risk.kellyFractionClaim model_prob market_price_cents side) ∧
    Risk.kelly_fraction (6/10) 50 "yes" = 1/5 ∧
    Risk.kelly_fraction (1/2) 50 "yes" = 0 ∧
    Risk.kelly_fraction (1/2) 50 "no" = 0 := by
  refine ⟨?_, ?_, ?_, ?_⟩
  · intro p c side _
    simp only [Risk.kelly_fraction, Risk.kellyFractionClaim]
    exact if_congr (or_comm) rfl rfl
  · simp only [Risk.kelly_fraction]
    norm_num [max_def, min_def]
  · simp only [Risk.kelly_fraction]
    norm_num [max_def, min_def]
  · simp only [Risk.kelly_fraction]
    norm_num [max_def, min_def]

/-- C1 witness: the specification equality and the concrete Kelly value at
`model_prob = 0.6`, `price = 50¢`, yes side. -/
theorem claim_C1_kelly_fraction_witness :
    Risk.kelly_fraction (6/10) 50 "yes" = Risk.kellyFractionClaim (6/10) 50 "yes" :=
  claim_C1_kelly_fraction.1 (6/10) 50 "yes" (Or.inl rfl)

/-- C2: with `maker_only = true` and bounds `min_px ≤ max_px`, maker price
selection returns none when the chosen side's bid is absent; returns the
clamped bid when the ask is absent; otherwise proposes
`min(bid+1, ceiling)` clamped, with `ceiling = bid` on a locked or
one-tick book and `ask - 1` otherwise, declining when the clamped price
exceeds the ceiling; every returned price is `≥ min_px` and `≤ ceiling`;
and `(yes_bid=40, yes_ask=41) ↦ 40`, `(yes_bid=40, yes_ask=45) ↦ 41`. -/
theorem claim_C2_maker_price :
    (∀ (book : PaperTrading.BookPrices) (side : String) (min_px max_px : ℤ),
       min_px ≤ max_px →
       (let bid := if side = "yes" then book.yes_bid else book.no_bid
        let ask := if side = "yes" then book.yes_ask else book.no_ask
        (bid = none →
           PaperTrading.makerPriceForSide side book true min_px max_px = none) ∧
        (∀ b, bid = some b → ask = none →
           PaperTrading.makerPriceForSide side book true min_px max_px =
             some (max min_px (min max_px b))) ∧
        (∀ b a, bid = some b → ask = some a →
           PaperTrading.makerPriceForSide side book true min_px max_px =
             (let ceiling : ℤ := if a - b ≤ 1 ∨ a ≤ b then b else a - 1
              let proposed := max min_px (min max_px (min (b + 1) ceiling))
              if ceiling < proposed then none else some proposed)) ∧
        (∀ p, PaperTrading.makerPriceForSide side book true min_px max_px = some p →
           min_px ≤ p ∧
           ∀ b a, bid = some b → ask = some a →
             p ≤ (if a - b ≤ 1 ∨ a ≤ b then b else a - 1)))) ∧
    PaperTrading.makerPriceForSide "yes" ⟨some 40, some 41, none, none⟩ true 1 99 = some 40 ∧
    PaperTrading.makerPriceForSide "yes" ⟨some 40, some 45, none, none⟩ true 1 99 = some 41 := by
  refine ⟨?_, by decide, by decide⟩
  intro book side min_px max_px hbounds
  dsimp only
  simp only [PaperTrading.makerPriceForSide]
  generalize (if side = "yes" then book.yes_bid else book.no_bid) = bid
  generalize (if side = "yes" then book.yes_ask else book.no_ask) = ask
  cases bid with
  | none =>
      refine ⟨fun _ => ?_, fun b hb hask => ?_, fun b a hb ha => ?_, fun p hp => ?_⟩
      · cases ask <;> simp
      · simp at hb
      · simp at hb
      · cases ask <;> simp at hp
  | some b0 =>
      cases ask with
      | none =>
          refine ⟨fun h => ?_, fun b hb hask => ?_, fun b a hb ha => ?_, fun p hp => ?_⟩
          · simp at h
          · rw [Option.some.injEq] at hb
            subst hb
            rfl
          · simp at ha
          · have hp2 : some (max min_px (min max_px b0)) = some p := hp
            refine ⟨?_, fun b a hb ha => ?_⟩
            · simp only [Option.some.injEq] at hp2
              omega
            · simp at ha
      | some a0 =>
          refine ⟨fun h => ?_, fun b hb hask => ?_, fun b a hb ha => ?_, fun p hp => ?_⟩
          · simp at h
          · simp at hask
          · rw [Option.some.injEq] at hb ha
            subst hb
            subst ha
            simp only [reduceCtorEq, and_false, if_false, and_self]
            split_ifs <;> first | rfl | omega
          · refine ⟨?_, fun b a hb ha => ?_⟩
            · simp only [reduceCtorEq, and_false, if_false, and_self] at hp
              split_ifs at hp <;> simp only [Option.some.injEq] at hp <;> omega
            · rw [Option.some.injEq] at hb ha
              subst hb
              subst ha
              simp only [reduceCtorEq, and_false, if_false, and_self] at hp
              split_ifs at hp <;> split_ifs <;> simp only [Option.some.injEq] at hp <;> omega

/-- C2 witness: the normal maker-only branch at
`yes_bid = 40, yes_ask = 45`, bounds `[1, 99]`. -/
theorem claim_C2_maker_price_witness :
    PaperTrading.makerPriceForSide "yes" ⟨some 40, some 45, none, none⟩ true 1 99 = some 41 :=
  (claim_C2_maker_price.1 ⟨some 40, some 45, none, none⟩ "yes" 1 99 (by decide)).2.2.1
    40 45 rfl rfl

set_option maxHeartbeats 1000000 in
/-- C4: for every integer price, the taker fee equals
`max(1, ceil(7 * p * (1 - p)))` cents with `p = clamp(price, 1, 99)/100`;
`50¢ ↦ 2`, `5¢ ↦ ≥ 1`; the maker fee is `0` everywhere. -/
theorem claim_C4_taker_fee :
    (∀ c : ℤ, BracketArb.takerFee c = BracketArb.takerFeeClaim c) ∧
    BracketArb.takerFee 50 = 2 ∧
    1 ≤ BracketArb.takerFee 5 ∧
    (∀ c : ℤ, BracketArb.makerFee c = 0) := by
  refine ⟨?_, ?_, ?_, fun c => rfl⟩
  · intro c
    simp only [BracketArb.takerFee, BracketArb.takerFeeClaim]
    have h1 : 1 ≤ max 1 (min 99 c) := by omega
    have h2 : max 1 (min 99 c) ≤ 99 := by omega
    set b := max 1 (min 99 c) with hb
    clear_value b
    clear hb
    have hM : (0:ℤ) ≤ 7 * b * (100 - b) := by nlinarith
    have hA : (7/100 : ℚ) * ((b:ℚ)/100) * (1 - (b:ℚ)/100) * 100 + 999/1000
        = ((7*b*(100-b) + 9990 : ℤ) : ℚ) / ((10000 : ℕ) : ℚ) := by push_cast; ring
    have hB : (7:ℚ) * ((b:ℚ)/100) * (1 - (b:ℚ)/100)
        = ((7*b*(100-b) : ℤ) : ℚ) / ((10000 : ℕ) : ℚ) := by push_cast; ring
    rw [hA, hB]
    have hneg : ¬ (((7*b*(100-b) + 9990 : ℤ) : ℚ) / ((10000 : ℕ) : ℚ) < 0) := by
      push_neg
      apply div_nonneg
      · exact_mod_cast by omega
      · norm_num
    rw [pyTrunc, if_neg hneg, Rat.floor_intCast_div_natCast]
    have hceil : ⌈((7*b*(100-b) : ℤ) : ℚ) / ((10000 : ℕ) : ℚ)⌉
        = -((-(7*b*(100-b)) : ℤ) / ((10000 : ℕ) : ℤ)) := by
      rw [show ((7*b*(100-b) : ℤ) : ℚ) / ((10000 : ℕ) : ℚ)
          = -(((-(7*b*(100-b)) : ℤ) : ℚ) / ((10000 : ℕ) : ℚ)) by push_cast; ring]
      rw [Int.ceil_neg, Rat.floor_intCast_div_natCast]
    rw [hceil]
    interval_cases b <;> omega
  · norm_num [BracketArb.takerFee, pyTrunc, max_def, min_def]
  · norm_num [BracketArb.takerFee, pyTrunc, max_def, min_def]

/-- C6 counterexample: a delta message whose `seq` (3) is strictly older
than the stored `seq` (5) is *not* ignored — it mutates the yes book and
the best bid, and overwrites the stored `seq`, refuting the claim that
such messages leave the ticker state unchanged. -/
theorem claim_C6_counterexample :
    (let books : String → KalshiFeed.BookState := fun t =>
        if t = "T" then
          { yes := [(40, 10)], no := [], seq := some 5,
            best_yes_bid := some 40, best_yes_ask := none }
        else KalshiFeed.emptyBookState
     let msg : KalshiFeed.DeltaMsg :=
       { market_ticker := "T",
         yes := [{ price := 41, delta := some 7, quantity := none }],
         no := [], seq := some 3 }
     (books "T").seq = some 5 ∧ msg.seq = some 3 ∧
     (KalshiFeed.handleOrderbookDelta books msg "T").yes ≠ (books "T").yes ∧
     (KalshiFeed.handleOrderbookDelta books msg "T").best_yes_bid ≠ (books "T").best_yes_bid ∧
     (KalshiFeed.handleOrderbookDelta books msg "T").seq = some 3) := by
  decide

/-- C6 (amended): `_handle_orderbook_delta` applies every delta in receipt
order *regardless* of `seq`: for any stored state and any message with a
non-blank ticker, the levels are applied and the stored `seq` is
overwritten with the message's, and the result does not depend on the
previously stored `seq` at all. -/
theorem claim_C6_delta_ignores_seq :
    ∀ (books : String → KalshiFeed.BookState) (msg : KalshiFeed.DeltaMsg),
      pyStrip msg.market_ticker ≠ "" →
      (KalshiFeed.handleOrderbookDelta books msg (pyStrip msg.market_ticker) =
        KalshiFeed.refreshBest
          { books (pyStrip msg.market_ticker) with
            yes := KalshiFeed.applyDeltaLevels (books (pyStrip msg.market_ticker)).yes msg.yes
            no := KalshiFeed.applyDeltaLevels (books (pyStrip msg.market_ticker)).no msg.no
            seq := msg.seq }) ∧
      (∀ q : Option ℤ,
        KalshiFeed.handleOrderbookDelta
          (fun u => if u = pyStrip msg.market_ticker then
              { books u with seq := q } else books u)
          msg (pyStrip msg.market_ticker) =
        KalshiFeed.handleOrderbookDelta books msg (pyStrip msg.market_ticker)) := by
  intro books msg h
  constructor
  · simp [KalshiFeed.handleOrderbookDelta, h]
  · intro q
    simp [KalshiFeed.handleOrderbookDelta, h]

/-- C6 witness: the amended statement at a concrete message for ticker
`"T"` against the empty book map. -/
theorem claim_C6_delta_ignores_seq_witness :
    KalshiFeed.handleOrderbookDelta (fun _ => KalshiFeed.emptyBookState)
        { market_ticker := "T", yes := [], no := [], seq := some 7 }
        (pyStrip "T") =
      KalshiFeed.refreshBest
        { (fun (_ : String) => KalshiFeed.emptyBookState) (pyStrip "T") with
          yes := KalshiFeed.applyDeltaLevels KalshiFeed.emptyBookState.yes []
          no := KalshiFeed.applyDeltaLevels KalshiFeed.emptyBookState.no []
          seq := some 7 } :=
  (claim_C6_delta_ignores_seq (fun _ => KalshiFeed.emptyBookState)
    { market_ticker := "T", yes := [], no := [], seq := some 7 } (by decide)).1

/-- The window fold of `_extract_daily_max` equals folding the maximum
over the temperatures selected by the window filter. -/
lemma window_fold_eq (tz : WeatherCollector.TimeZoneModel) (w : ℤ × ℤ) :
    ∀ (l : List (Option ℚ × Option ℤ)) (acc : Option ℚ),
      l.foldl
        (fun max_temp entry =>
          match entry.2 with
          | none => max_temp
          | some wall =>
              if tz.instant w.1 ≤ tz.instant wall ∧ tz.instant wall < tz.instant w.2 then
                match entry.1 with
                | none => max_temp
                | some temp =>
                    match max_temp with
                    | none => some temp
                    | some m => if m < temp then some temp else max_temp
              else max_temp) acc
      = (l.filterMap
          (fun entry =>
            match entry.2 with
            | none => none
            | some wall =>
                if tz.instant w.1 ≤ tz.instant wall ∧ tz.instant wall < tz.instant w.2 then
                  entry.1
                else none)).foldl
          (fun acc temp =>
            match acc with
            | none => some temp
            | some m => if m < temp then some temp else some m) acc := by
  intro l
  induction l with
  | nil => intro acc; rfl
  | cons e t ih =>
      intro acc
      simp only [List.foldl_cons, List.filterMap_cons]
      rcases e with ⟨v, tm⟩
      cases tm with
      | none => exact ih acc
      | some wall =>
          by_cases hin : tz.instant w.1 ≤ tz.instant wall ∧ tz.instant wall < tz.instant w.2
          · cases v with
            | none => simp only [if_pos hin]; exact ih acc
            | some temp =>
                cases acc with
                | none =>
                    simp only [if_pos hin, List.foldl_cons]
                    exact ih (some temp)
                | some m =>
                    by_cases hlt : m < temp
                    · simp only [if_pos hin, List.foldl_cons, if_pos hlt]
                      exact ih (some temp)
                    · simp only [if_pos hin, List.foldl_cons, if_neg hlt]
                      exact ih (some m)
          · simp only [if_neg hin]; exact ih acc

/-- C7: for every zone model and target date the measurement window is
`[01:00, next-day 01:00)` wall time on DST days and `[00:00, next-day
00:00)` otherwise; the daily max ranges exactly over the samples inside
that half-open window; 2026-07-08 is a DST day in America/New_York, and
the concrete hourly series `[00:00 ↦ 99, 01:00 ↦ 80, 12:00 ↦ 85]` gives
daily max 85 (the 00:00 sample is excluded). -/
theorem claim_C7_measurement_window :
    (∀ (tz : WeatherCollector.TimeZoneModel) (d : WeatherCollector.CivilDate),
      (WeatherCollector.isDst d tz = true →
        WeatherCollector.measurementWindow d tz =
          (WeatherCollector.daysFromCivil d * 1440 + 60,
           (WeatherCollector.daysFromCivil d + 1) * 1440 + 60)) ∧
      (WeatherCollector.isDst d tz = false →
        WeatherCollector.measurementWindow d tz =
          (WeatherCollector.daysFromCivil d * 1440,
           (WeatherCollector.daysFromCivil d + 1) * 1440))) ∧
    (∀ tz d vals times,
      WeatherCollector.extractDailyMax tz d vals times =
        WeatherCollector.maxOfTemps (WeatherCollector.windowTemps tz d vals times)) ∧
    WeatherCollector.isDst ⟨2026, 7, 8⟩ WeatherCollector.americaNewYork = true ∧
    WeatherCollector.extractDailyMax WeatherCollector.americaNewYork ⟨2026, 7, 8⟩
      [some 99, some 80, some 85]
      [some (WeatherCollector.combine ⟨2026, 7, 8⟩ 0 0),
       some (WeatherCollector.combine ⟨2026, 7, 8⟩ 1 0),
       some (WeatherCollector.combine ⟨2026, 7, 8⟩ 12 0)] = some 85 := by
  refine ⟨?_, ?_, by decide, by decide⟩
  · intro tz d
    constructor <;> intro h <;>
      simp only [WeatherCollector.measurementWindow, WeatherCollector.combine, h,
        if_true, if_false, Bool.false_eq_true, Prod.mk.injEq] <;>
      constructor <;> ring
  · intro tz d vals times
    simp only [WeatherCollector.extractDailyMax, WeatherCollector.windowTemps,
      WeatherCollector.maxOfTemps]
    exact window_fold_eq tz (WeatherCollector.measurementWindow d tz) (List.zip vals times) none

/-- C7 witness: the DST window equation at 2026-07-08 in the
America/New_York model. -/
theorem claim_C7_measurement_window_witness :
    WeatherCollector.measurementWindow ⟨2026, 7, 8⟩ WeatherCollector.americaNewYork =
      (WeatherCollector.daysFromCivil ⟨2026, 7, 8⟩ * 1440 + 60,
       (WeatherCollector.daysFromCivil ⟨2026, 7, 8⟩ + 1) * 1440 + 60) :=
  (claim_C7_measurement_window.1 WeatherCollector.americaNewYork ⟨2026, 7, 8⟩).1 (by decide)

/-- Any alert appended by one edge-decay loop iteration names the
position's ticker, and only when that ticker is not hedged. -/
lemma edgeDecayStep_mem (sig : List EdgeMonitor.SignalRow) (θ : ℤ)
    (act : Option (List String)) (hTick : String → Bool)
    (state : List EdgeMonitor.Alert × List String) (p : EdgeMonitor.Position) :
    ∀ a ∈ (EdgeMonitor.edgeDecayStep sig θ act hTick state p).1,
      a ∈ state.1 ∨
        (EdgeMonitor.Alert.aboutTicker a = p.market_ticker ∧
          hTick p.market_ticker = false) := by
  obtain ⟨alerts, notified⟩ := state
  intro a ha
  unfold EdgeMonitor.edgeDecayStep at ha
  dsimp only at ha
  split at ha
  · exact Or.inl ha
  split at ha
  · exact Or.inl ha
  rename_i hsides hhedged
  have hfalse : hTick p.market_ticker = false := by
    revert hhedged
    cases hTick p.market_ticker <;> simp
  split at ha
  all_goals try split at ha
  all_goals try split at ha
  all_goals try dsimp only at ha
  all_goals try split at ha
  all_goals
    first
      | exact Or.inl ha
      | (rcases List.mem_append.mp ha with h | h
         · exact Or.inl h
         · rcases List.mem_singleton.mp h with rfl
           exact Or.inr ⟨rfl, hfalse⟩)

/-- Fold version of `edgeDecayStep_mem` over a position list. -/
lemma edgeDecay_fold_mem (sig : List EdgeMonitor.SignalRow) (θ : ℤ)
    (act : Option (List String)) (hTick : String → Bool) :
    ∀ (ps : List EdgeMonitor.Position) (state : List EdgeMonitor.Alert × List String),
      ∀ a ∈ (ps.foldl (EdgeMonitor.edgeDecayStep sig θ act hTick) state).1,
        a ∈ state.1 ∨
          ∃ p ∈ ps, EdgeMonitor.Alert.aboutTicker a = p.market_ticker ∧
            hTick p.market_ticker = false := by
  intro ps
  induction ps with
  | nil => exact fun state a ha => Or.inl ha
  | cons p t ih =>
      intro state a ha
      simp only [List.foldl_cons] at ha
      rcases ih _ a ha with h | ⟨q, hq, hEq⟩
      · rcases edgeDecayStep_mem sig θ act hTick state p a h with h2 | h2
        · exact Or.inl h2
        · exact Or.inr ⟨p, List.mem_cons_self p t, h2⟩
      · exact Or.inr ⟨q, List.mem_cons_of_mem p hq, hEq⟩

/-- C8: for every list of open positions and current signals,
`build_edge_decay_alerts` emits no alert about a ticker that has open
positions on both the yes and the no side, whatever the current signal
for that ticker is. -/
theorem claim_C8_hedged_suppressed :
    ∀ (open_positions : List EdgeMonitor.Position)
      (current_signals : List EdgeMonitor.SignalRow)
      (threshold : ℤ) (active : Option (List String)) (t : String),
      EdgeMonitor.hasSide open_positions t "yes" = true →
      EdgeMonitor.hasSide open_positions t "no" = true →
      ∀ a ∈ EdgeMonitor.build_edge_decay_alerts open_positions current_signals
          threshold active,
        EdgeMonitor.Alert.aboutTicker a ≠ t := by
  intro ps sigs θ act t hy hn a ha hEq
  have hhedged : EdgeMonitor.hedged ps t = true := by
    simp only [EdgeMonitor.hedged, hy, hn, Bool.and_self]
  unfold EdgeMonitor.build_edge_decay_alerts at ha
  rcases edgeDecay_fold_mem sigs θ act (EdgeMonitor.hedged ps) ps ([], []) a ha with
    h | ⟨p, _, hticker, hfalse⟩
  · simp at h
  · rw [hEq] at hticker
    rw [← hticker] at hfalse
    rw [hhedged] at hfalse
    cases hfalse

/-- C8 witness: with hedged positions on `"T"` and an unhedged position on
`"U"` with no signal, the emitted no-signal alert is about `"U"`, not
`"T"`. -/
theorem claim_C8_hedged_suppressed_witness :
    EdgeMonitor.Alert.aboutTicker (EdgeMonitor.Alert.noSignal "U") ≠ "T" :=
  claim_C8_hedged_suppressed [⟨"T", "yes"⟩, ⟨"T", "no"⟩, ⟨"U", "yes"⟩] [] 50 none "T"
    (by decide) (by decide) (EdgeMonitor.Alert.noSignal "U") (by decide)

/-- The branch body of `kelly_fraction` stays in `[0,1]` whenever the
edge coefficients sum to one and the loss is non-negative. -/
lemma kellyCoreBound (a b : ℚ) (win loss : ℤ) (_ha : 0 ≤ a) (hb : 0 ≤ b)
    (hab : a + b = 1) (hl : 0 ≤ loss) :
    0 ≤ (if win ≤ 0 ∨ a * (win:ℚ) - b * (loss:ℚ) ≤ 0 then (0:ℚ)
         else (a * (win:ℚ) - b * (loss:ℚ)) / (win:ℚ)) ∧
      (if win ≤ 0 ∨ a * (win:ℚ) - b * (loss:ℚ) ≤ 0 then (0:ℚ)
       else (a * (win:ℚ) - b * (loss:ℚ)) / (win:ℚ)) ≤ 1 := by
  split_ifs with h
  · norm_num
  · push_neg at h
    obtain ⟨hw, he⟩ := h
    have hwq : (0:ℚ) < (win:ℚ) := by exact_mod_cast hw
    have heq : 0 < a * (win:ℚ) - b * (loss:ℚ) := he
    have hlq : (0:ℚ) ≤ (loss:ℚ) := by exact_mod_cast hl
    constructor
    · exact div_nonneg heq.le hwq.le
    · rw [div_le_one hwq]
      have h3 : a * (win:ℚ) + b * (win:ℚ) = (win:ℚ) := by
        rw [← add_mul, hab, one_mul]
      have h4 : 0 ≤ b * (loss:ℚ) := mul_nonneg hb hlq
      have h5 : 0 ≤ b * (win:ℚ) := mul_nonneg hb hwq.le
      linarith

/-- `kelly_fraction` always returns a value in `[0,1]`. -/
lemma kelly_fraction_bounds :
    ∀ (model_prob : ℚ) (market_price_cents : ℤ) (side : String),
      0 ≤ Risk.kelly_fraction model_prob market_price_cents side ∧
      Risk.kelly_fraction model_prob market_price_cents side ≤ 1 := by
  intro p c side
  have hp0 : 0 ≤ max 0 (min 1 p) := le_max_left 0 _
  have hp1 : max 0 (min 1 p) ≤ 1 := by
    apply max_le
    · norm_num
    · exact min_le_left 1 p
  have hq0 : 0 ≤ 1 - max 0 (min 1 p) := by linarith
  have hprice : (0:ℤ) ≤ max 1 (min 99 c) := by omega
  have hwin : (0:ℤ) ≤ 100 - max 1 (min 99 c) := by omega
  by_cases hs : side = "yes" <;>
    simp only [Risk.kelly_fraction, hs, if_true, if_false, reduceIte]
  · exact kellyCoreBound (max 0 (min 1 p)) (1 - max 0 (min 1 p))
      (100 - max 1 (min 99 c)) (max 1 (min 99 c)) hp0 hq0 (by ring) hprice
  · exact kellyCoreBound (1 - max 0 (min 1 p)) (max 0 (min 1 p))
      (max 1 (min 99 c)) (100 - max 1 (min 99 c)) hq0 hp0 (by ring) hwin

/-- C9: for every model probability (also outside `[0,1]`), price and side
string, `kelly_fraction` lies in `[0,1]`; consequently the Kelly-sized
dollar target computed by `compute_order_size` (via `kellyTargetDollars`,
with the fill probability and confidence clamps of the source and a
`kelly_fraction_scale` in `[0,1]` as the settings loader guarantees) never
exceeds the effective bankroll, before the position and portfolio caps. -/
theorem claim_C9_kelly_bounds :
    (∀ (model_prob : ℚ) (market_price_cents : ℤ) (side : String),
       0 ≤ Risk.kelly_fraction model_prob market_price_cents side ∧
       Risk.kelly_fraction model_prob market_price_cents side ≤ 1) ∧
    (∀ (model_prob : ℚ) (market_price_cents : ℤ) (side : String)
       (settings : Risk.Settings) (bankroll_dollars : Option ℚ)
       (fill_probability confidence : Option ℚ),
       0 ≤ settings.kelly_fraction_scale →
       settings.kelly_fraction_scale ≤ 1 →
       0 ≤ settings.paper_trade_max_portfolio_exposure_dollars →
       Risk.kellyTargetDollars (Risk.effectiveBankroll bankroll_dollars settings)
           (Risk.kelly_fraction model_prob market_price_cents side *
             max 0 (min 1
               (fill_probability.getD settings.paper_trade_default_fill_probability)))
           settings.kelly_fraction_scale
           (max 0 (min 1 (confidence.getD 0)))
         ≤ Risk.effectiveBankroll bankroll_dollars settings) := by
  refine ⟨kelly_fraction_bounds, ?_⟩
  intro p c side settings bankroll fillp conf hs0 hs1 hport
  obtain ⟨hk0, hk1⟩ := kelly_fraction_bounds p c side
  set K := Risk.kelly_fraction p c side
  set F : ℚ := max 0 (min 1 (fillp.getD settings.paper_trade_default_fill_probability)) with hF
  set C : ℚ := max 0 (min 1 (conf.getD 0)) with hC
  set B : ℚ := Risk.effectiveBankroll bankroll settings with hB
  have hF0 : 0 ≤ F := le_max_left 0 _
  have hF1 : F ≤ 1 := by
    apply max_le
    · norm_num
    · exact min_le_left 1 _
  have hC0 : 0 ≤ C := le_max_left 0 _
  have hC1 : C ≤ 1 := by
    apply max_le
    · norm_num
    · exact min_le_left 1 _
  have hB0 : 0 ≤ B := by
    rw [hB]
    unfold Risk.effectiveBankroll
    match bankroll with
    | none => exact hport
    | some b =>
        dsimp only
        split_ifs with h
        · exact hport
        · linarith [not_le.mp h]
  have hKF0 : 0 ≤ K * F := mul_nonneg hk0 hF0
  have hKF1 : K * F ≤ 1 := by nlinarith
  unfold Risk.kellyTargetDollars
  have s1 : B * (K * F) ≤ B := mul_le_of_le_one_right hB0 hKF1
  have s1' : 0 ≤ B * (K * F) := mul_nonneg hB0 hKF0
  have s2 : B * (K * F) * settings.kelly_fraction_scale ≤ B := by
    calc B * (K * F) * settings.kelly_fraction_scale
        ≤ B * 1 := by
          apply mul_le_mul s1 hs1 hs0 hB0
      _ = B := mul_one B
  have s2' : 0 ≤ B * (K * F) * settings.kelly_fraction_scale := mul_nonneg s1' hs0
  calc B * (K * F) * settings.kelly_fraction_scale * C
      ≤ B * 1 := mul_le_mul s2 hC1 hC0 hB0
    _ = B := mul_one B

/-- C9 witness: the target bound at concrete settings and inputs. -/
theorem claim_C9_kelly_bounds_witness :
    Risk.kellyTargetDollars
        (Risk.effectiveBankroll (some 1000)
          ⟨"kelly", 2, 1/2, 1/4, 50, 500⟩)
        (Risk.kelly_fraction (6/10) 50 "yes" * max 0 (min 1 ((none : Option ℚ).getD (1/2))))
        (1/4) (max 0 (min 1 ((some (1:ℚ)).getD 0)))
      ≤ Risk.effectiveBankroll (some 1000) ⟨"kelly", 2, 1/2, 1/4, 50, 500⟩ :=
  claim_C9_kelly_bounds.2 (6/10) 50 "yes" ⟨"kelly", 2, 1/2, 1/4, 50, 500⟩ (some 1000) none (some 1)
    (by norm_num) (by norm_num) (by norm_num)

/-- A best bid returned by `_best_bid_and_depth` has positive depth. -/
lemma bestBidAndDepth_pos (raw : List (ℤ × ℤ)) (b d : ℤ)
    (h : BracketArb.bestBidAndDepth raw = some (b, d)) : 0 < d := by
  unfold BracketArb.bestBidAndDepth at h
  split at h
  · cases h
  · dsimp only at h
    split_ifs at h with h1
    injection h with h2
    cases h2
    omega

/-- The leg loop produces one leg per ticker, each of positive depth, and
its running minimum is a lower bound on the leg depths that some leg
attains. -/
lemma gatherLegs_spec (obs : String → Option Book) (by_yes : Bool) :
    ∀ (ts : List String) (legs : List BracketArb.Leg) (cost fees : ℤ) (md : Option ℤ),
      BracketArb.gatherLegs obs by_yes ts = some (legs, cost, fees, md) →
      legs.length = ts.length ∧
      (∀ l ∈ legs, 0 < l.depth) ∧
      (match md with
       | none => legs = []
       | some d => (∀ l ∈ legs, d ≤ l.depth) ∧ (∃ l ∈ legs, l.depth = d)) := by
  intro ts
  induction ts with
  | nil =>
      intro legs cost fees md h
      rw [BracketArb.gatherLegs, Option.some.injEq, Prod.mk.injEq] at h
      obtain ⟨rfl, h2⟩ := h
      rw [Prod.mk.injEq] at h2
      obtain ⟨-, h3⟩ := h2
      rw [Prod.mk.injEq] at h3
      obtain ⟨-, rfl⟩ := h3
      refine ⟨rfl, by simp, by simp⟩
  | cons t rest ih =>
      intro legs cost fees md h
      rw [BracketArb.gatherLegs] at h
      cases hob : obs t with
      | none => rw [hob] at h; cases h
      | some orderbook =>
          rw [hob] at h
          dsimp only at h
          cases hbb : BracketArb.bestBidAndDepth
              (if by_yes then orderbook.no else orderbook.yes) with
          | none => rw [hbb] at h; cases h
          | some bd =>
              obtain ⟨bid, depth⟩ := bd
              rw [hbb] at h
              dsimp only at h
              cases hrec : BracketArb.gatherLegs obs by_yes rest with
              | none => rw [hrec] at h; cases h
              | some q =>
                  obtain ⟨legs0, cost0, fees0, md0⟩ := q
                  rw [hrec] at h
                  dsimp only at h
                  rw [Option.some.injEq, Prod.mk.injEq] at h
                  obtain ⟨rfl, h2⟩ := h
                  rw [Prod.mk.injEq] at h2
                  obtain ⟨-, h3⟩ := h2
                  rw [Prod.mk.injEq] at h3
                  obtain ⟨-, rfl⟩ := h3
                  have hd : 0 < depth := bestBidAndDepth_pos _ _ _ hbb
                  obtain ⟨hlen, hpos, hmd⟩ := ih legs0 cost0 fees0 md0 hrec
                  refine ⟨by simp [hlen], ?_, ?_⟩
                  · intro l hl
                    rcases List.mem_cons.mp hl with rfl | hl
                    · exact hd
                    · exact hpos l hl
                  · cases md0 with
                    | none =>
                        have : legs0 = [] := hmd
                        subst this
                        refine ⟨?_, ?_⟩
                        · intro l hl
                          rcases List.mem_cons.mp hl with rfl | hl
                          · exact le_refl _
                          · cases hl
                        · exact ⟨_, List.mem_cons_self _ _, rfl⟩
                    | some d0 =>
                        obtain ⟨hlb, l0, hl0, hl0d⟩ := hmd
                        dsimp only
                        refine ⟨?_, ?_⟩
                        · intro l hl
                          rcases List.mem_cons.mp hl with rfl | hl
                          · exact min_le_left _ _
                          · exact le_trans (min_le_right _ _) (hlb l hl)
                        · rcases le_total depth d0 with hle | hle
                          · refine ⟨_, List.mem_cons_self _ _, ?_⟩
                            dsimp only
                            omega
                          · refine ⟨l0, List.mem_cons_of_mem _ hl0, ?_⟩
                            omega


/-- The invariants of an emitted all-YES candidate. -/
lemma allYesCandidate_spec (e : String) (ts : List String)
    (obs : String → Option Book) (opp : BracketArb.Opportunity)
    (h : BracketArb.allYesCandidate e ts obs = some opp) :
    opp.payout_cents - opp.cost_cents = opp.profit_cents ∧
    0 < opp.profit_cents ∧
    0 < opp.max_sets ∧
    (∀ l ∈ opp.legs, opp.max_sets ≤ l.depth) ∧
    (∃ l ∈ opp.legs, l.depth = opp.max_sets) ∧
    0 < opp.profit_after_fees_cents ∧
    opp.arb_type = "all_yes" ∧
    opp.legs.length = ts.length ∧
    opp.payout_cents = 100 := by
  unfold BracketArb.allYesCandidate at h
  cases hg : BracketArb.gatherLegs obs true ts with
  | none => rw [hg] at h; cases h
  | some q =>
      obtain ⟨legs, cost, fees, md⟩ := q
      rw [hg] at h
      dsimp only at h
      obtain ⟨hlen, hpos, hmd⟩ := gatherLegs_spec obs true ts legs cost fees md hg
      split_ifs at h with h1 h2 h3
      rw [Option.some.injEq] at h
      subst h
      dsimp only at h2 h3 ⊢
      cases md with
      | none =>
          exfalso
          apply h2
          simp [Option.getD]
      | some d =>
          obtain ⟨hlb, l0, hl0, hl0d⟩ := hmd
          have hd0 : 0 < d := hl0d ▸ hpos l0 hl0
          have hmax : max 0 ((some d).getD 0) = d := by
            simp [Option.getD]
            omega
          refine ⟨by ring, by omega, by omega, ?_, ?_, ?_, rfl, hlen, rfl⟩
          · intro l hl
            rw [hmax]
            exact hlb l hl
          · exact ⟨l0, hl0, by rw [hmax]; exact hl0d⟩
          · have hms : 0 < max 0 ((some d).getD 0) := by omega
            have hpf : 0 < 100 - cost - fees := by omega
            exact mul_pos hpf hms

/-- The invariants of an emitted all-NO candidate. -/
lemma allNoCandidate_spec (e : String) (ts : List String)
    (obs : String → Option Book) (opp : BracketArb.Opportunity)
    (h : BracketArb.allNoCandidate e ts obs = some opp) :
    opp.payout_cents - opp.cost_cents = opp.profit_cents ∧
    0 < opp.profit_cents ∧
    0 < opp.max_sets ∧
    (∀ l ∈ opp.legs, opp.max_sets ≤ l.depth) ∧
    (∃ l ∈ opp.legs, l.depth = opp.max_sets) ∧
    0 < opp.profit_after_fees_cents ∧
    opp.arb_type = "all_no" ∧
    opp.legs.length = ts.length ∧
    opp.payout_cents = ((ts.length : ℤ) - 1) * 100 := by
  unfold BracketArb.allNoCandidate at h
  split_ifs at h with hn
  cases hg : BracketArb.gatherLegs obs false ts with
  | none => rw [hg] at h; cases h
  | some q =>
      obtain ⟨legs, cost, fees, md⟩ := q
      rw [hg] at h
      dsimp only at h
      obtain ⟨hlen, hpos, hmd⟩ := gatherLegs_spec obs false ts legs cost fees md hg
      split_ifs at h with h1 h2 h3
      rw [Option.some.injEq] at h
      subst h
      dsimp only at h2 h3 ⊢
      cases md with
      | none =>
          exfalso
          apply h2
          simp [Option.getD]
      | some d =>
          obtain ⟨hlb, l0, hl0, hl0d⟩ := hmd
          have hd0 : 0 < d := hl0d ▸ hpos l0 hl0
          have hmax : max 0 ((some d).getD 0) = d := by
            simp [Option.getD]
            omega
          refine ⟨by ring, by omega, by omega, ?_, ?_, ?_, rfl, hlen, rfl⟩
          · intro l hl
            rw [hmax]
            exact hlb l hl
          · exact ⟨l0, hl0, by rw [hmax]; exact hl0d⟩
          · have hms : 0 < max 0 ((some d).getD 0) := by omega
            have hpf : 0 < ((ts.length : ℤ) - 1) * 100 - cost - fees := by omega
            exact mul_pos hpf hms

/-- Membership after a profit-sorted insertion. -/
lemma insertByProfit_mem (x o : BracketArb.Opportunity) :
    ∀ l : List BracketArb.Opportunity,
      x ∈ BracketArb.insertByProfit o l → x = o ∨ x ∈ l := by
  intro l
  induction l with
  | nil =>
      intro h
      rw [BracketArb.insertByProfit] at h
      rcases List.mem_singleton.mp h with rfl
      exact Or.inl rfl
  | cons a t ih =>
      intro h
      rw [BracketArb.insertByProfit] at h
      split_ifs at h
      · rcases List.mem_cons.mp h with rfl | h2
        · exact Or.inl rfl
        · exact Or.inr h2
      · rcases List.mem_cons.mp h with rfl | h2
        · exact Or.inr (List.mem_cons_self _ _)
        · rcases ih h2 with h3 | h3
          · exact Or.inl h3
          · exact Or.inr (List.mem_cons_of_mem a h3)

/-- Membership in the profit-sorted fold. -/
lemma foldl_insert_mem (x : BracketArb.Opportunity) :
    ∀ (l init : List BracketArb.Opportunity),
      x ∈ l.foldl (fun acc c => BracketArb.insertByProfit c acc) init →
      x ∈ init ∨ x ∈ l := by
  intro l
  induction l with
  | nil => exact fun init h => Or.inl h
  | cons c t ih =>
      intro init h
      simp only [List.foldl_cons] at h
      rcases ih _ h with h2 | h2
      · rcases insertByProfit_mem x c init h2 with h3 | h3
        · exact Or.inr (h3 ▸ List.mem_cons_self c t)
        · exact Or.inl h3
      · exact Or.inr (List.mem_cons_of_mem c h2)

/-- C3: every opportunity returned by `scan_bracket_arbitrage` satisfies
`payout - cost = profit > 0`, `max_sets` is the minimum leg depth (a
positive lower bound attained by some leg), `profit_after_fees_cents > 0`
and exceeds the configured minimum, and an all-NO opportunity over `n`
legs pays out `(n-1)*100`; with fewer than two non-blank bracket tickers
the scan returns nothing. -/
theorem claim_C3_scan_invariants :
    (∀ (event : String) (bracket_tickers : List String) (obs : String → Option Book)
       (min_profit : ℤ) (opp : BracketArb.Opportunity),
       BracketArb.scanBracketArbitrage event bracket_tickers obs min_profit = some opp →
         opp.payout_cents - opp.cost_cents = opp.profit_cents ∧
         0 < opp.profit_cents ∧
         0 < opp.max_sets ∧
         (∀ l ∈ opp.legs, opp.max_sets ≤ l.depth) ∧
         (∃ l ∈ opp.legs, l.depth = opp.max_sets) ∧
         0 < opp.profit_after_fees_cents ∧
         min_profit < opp.profit_after_fees_cents ∧
         (opp.arb_type = "all_no" →
            opp.payout_cents = ((opp.legs.length : ℤ) - 1) * 100)) ∧
    (∀ (event : String) (bracket_tickers : List String) (obs : String → Option Book)
       (min_profit : ℤ),
       (bracket_tickers.filterMap
         (fun t => if pyStrip t = "" then none
                   else some (pyUpper (pyStrip t)))).length < 2 →
       BracketArb.scanBracketArbitrage event bracket_tickers obs min_profit = none) := by
  constructor
  · intro event bts obs minp opp h
    unfold BracketArb.scanBracketArbitrage at h
    dsimp only at h
    split_ifs at h with hlen
    set tickers := bts.filterMap
      (fun t => if pyStrip t = "" then none else some (pyUpper (pyStrip t))) with hts
    set valid := ([BracketArb.allYesCandidate event tickers obs,
                   BracketArb.allNoCandidate event tickers obs].filterMap id).filter
      (fun c => decide (minp < c.profit_after_fees_cents)) with hv
    cases hfold : valid.foldl (fun acc c => BracketArb.insertByProfit c acc) [] with
    | nil => rw [hfold] at h; cases h
    | cons best rest =>
        rw [hfold] at h
        rw [Option.some.injEq] at h
        obtain rfl := h.symm
        have hmem : opp ∈ valid := by
          have : opp ∈ valid.foldl (fun acc c => BracketArb.insertByProfit c acc) [] := by
            rw [hfold]; exact List.mem_cons_self _ _
          rcases foldl_insert_mem opp valid [] this with h2 | h2
          · cases h2
          · exact h2
        rw [hv] at hmem
        obtain ⟨hfm, hpf⟩ := List.mem_filter.mp hmem
        have hprofit : minp < opp.profit_after_fees_cents := of_decide_eq_true hpf
        simp only [List.mem_filterMap, id_eq, List.mem_cons, List.mem_singleton,
          List.not_mem_nil, or_false] at hfm
        obtain ⟨a, ha, haeq⟩ := hfm
        rcases ha with rfl | rfl
        · obtain ⟨g1, g2, g3, g4, g5, g6, g7, g8, g9⟩ :=
            allYesCandidate_spec event tickers obs opp haeq
          refine ⟨g1, g2, g3, g4, g5, g6, hprofit, ?_⟩
          intro habs
          rw [g7] at habs
          exact absurd habs (by decide)
        · obtain ⟨g1, g2, g3, g4, g5, g6, g7, g8, g9⟩ :=
            allNoCandidate_spec event tickers obs opp haeq
          refine ⟨g1, g2, g3, g4, g5, g6, hprofit, ?_⟩
          intro _
          rw [g9, g8]
  · intro event bts obs minp hlen
    unfold BracketArb.scanBracketArbitrage
    dsimp only
    rw [if_pos hlen]

/-- C3 witness: the scan invariants at the concrete two-bracket scenario
with NO bids 70 and 68 and depths 50 and 60. -/
theorem claim_C3_scan_invariants_witness :
    bracketArbWitnessOpp.payout_cents - bracketArbWitnessOpp.cost_cents =
        bracketArbWitnessOpp.profit_cents ∧
    0 < bracketArbWitnessOpp.profit_cents ∧
    0 < bracketArbWitnessOpp.max_sets ∧
    (∀ l ∈ bracketArbWitnessOpp.legs, bracketArbWitnessOpp.max_sets ≤ l.depth) ∧
    (∃ l ∈ bracketArbWitnessOpp.legs, l.depth = bracketArbWitnessOpp.max_sets) ∧
    0 < bracketArbWitnessOpp.profit_after_fees_cents ∧
    0 < bracketArbWitnessOpp.profit_after_fees_cents ∧
    (bracketArbWitnessOpp.arb_type = "all_no" →
       bracketArbWitnessOpp.payout_cents =
         ((bracketArbWitnessOpp.legs.length : ℤ) - 1) * 100) :=
  claim_C3_scan_invariants.1 "EV" ["A", "B"] bracketArbWitnessBooks 0
    bracketArbWitnessOpp (by
      have h30 : BracketArb.takerFee 30 = 2 := by
        norm_num [BracketArb.takerFee, pyTrunc, max_def, min_def]
      have h32 : BracketArb.takerFee 32 = 2 := by
        norm_num [BracketArb.takerFee, pyTrunc, max_def, min_def]
      have htickers : (["A", "B"].filterMap
          (fun t => if pyStrip t = "" then none
                    else some (pyUpper (pyStrip t)))) = ["A", "B"] := by decide
      rw [BracketArb.scanBracketArbitrage]
      dsimp only
      rw [htickers]
      have hne : ¬ (("B" : String) = "A") := by decide
      norm_num [BracketArb.allYesCandidate, BracketArb.allNoCandidate,
        BracketArb.gatherLegs, BracketArb.bestBidAndDepth,
        BracketArb.normalizeLevels, sortByPrice, insertByPrice,
        BracketArb.insertByProfit, bracketArbWitnessBooks, bracketArbWitnessOpp,
        h30, h32, hne, max_def, min_def]
      decide)

/-- Stable price insertion permutes. -/
lemma insertByPrice_perm (d : Bool) (row : ℤ × ℤ) :
    ∀ l : List (ℤ × ℤ), (insertByPrice d row l).Perm (row :: l) := by
  intro l
  induction l with
  | nil => rw [insertByPrice]
  | cons a t ih =>
      rw [insertByPrice]
      split_ifs <;>
        first
          | exact List.Perm.refl _
          | exact (ih.cons a).trans (List.Perm.swap row a t)

/-- The insertion fold permutes the accumulator and the input. -/
lemma sortByPrice_perm_aux (d : Bool) :
    ∀ (l acc : List (ℤ × ℤ)),
      (l.foldl (fun acc row => insertByPrice d row acc) acc).Perm (acc ++ l) := by
  intro l
  induction l with
  | nil => intro acc; simp
  | cons x xs ih =>
      intro acc
      simp only [List.foldl_cons]
      refine (ih (insertByPrice d x acc)).trans ?_
      have h1 : (insertByPrice d x acc ++ xs).Perm ((x :: acc) ++ xs) :=
        (insertByPrice_perm d x acc).append_right xs
      refine h1.trans ?_
      simp only [List.cons_append]
      exact (List.perm_middle).symm

/-- `sortByPrice` is a permutation of its input. -/
lemma sortByPrice_perm (d : Bool) (l : List (ℤ × ℤ)) :
    (sortByPrice d l).Perm l := by
  have := sortByPrice_perm_aux d l []
  simpa [sortByPrice] using this

/-- The total positive quantity of a level list is non-negative. -/
lemma posDepthSum_nonneg (l : List (ℤ × ℤ)) :
    0 ≤ ((l.filter (fun r => 0 < r.2)).map Prod.snd).sum := by
  apply List.sum_nonneg
  intro x hx
  obtain ⟨r, hr, rfl⟩ := List.mem_map.mp hx
  have h2 := List.mem_filter.mp hr
  have := of_decide_eq_true h2.2
  omega

/-- The total positive quantity is positive iff some level is. -/
lemma posDepthSum_pos_iff (l : List (ℤ × ℤ)) :
    (0 < ((l.filter (fun r => 0 < r.2)).map Prod.snd).sum) ↔ ∃ r ∈ l, 0 < r.2 := by
  induction l with
  | nil => simp
  | cons a t ih =>
      by_cases ha : 0 < a.2
      · rw [List.filter_cons_of_pos (by simpa using ha)]
        simp only [List.map_cons, List.sum_cons]
        have := posDepthSum_nonneg t
        constructor
        · intro _
          exact ⟨a, List.mem_cons_self a t, ha⟩
        · intro _
          omega
      · rw [List.filter_cons_of_neg (by simpa using ha)]
        rw [ih]
        constructor
        · rintro ⟨r, hr, hr2⟩
          exact ⟨r, List.mem_cons_of_mem a hr, hr2⟩
        · rintro ⟨r, hr, hr2⟩
          rcases List.mem_cons.mp hr with rfl | hr3
          · exact absurd hr2 ha
          · exact ⟨r, hr3, hr2⟩

/-- The fill loop fills nothing for a non-positive target. -/
lemma vwapFill_zero : ∀ (ls : List (ℤ × ℤ)) (t : ℤ), t ≤ 0 →
    OrderbookUtils.vwapFill ls t = (0, 0) := by
  intro ls
  induction ls with
  | nil => intro t _; rfl
  | cons a rest ih =>
      intro t ht
      obtain ⟨p, q⟩ := a
      rw [OrderbookUtils.vwapFill]
      split_ifs with h1
      · exact ih t ht
      · rfl

/-- The fill loop fills exactly `min target (total positive quantity)`. -/
lemma vwapFill_filled : ∀ (ls : List (ℤ × ℤ)) (t : ℤ), 0 < t →
    (OrderbookUtils.vwapFill ls t).2 =
      min t (((ls.filter (fun r => 0 < r.2)).map Prod.snd).sum) := by
  intro ls
  induction ls with
  | nil =>
      intro t ht
      simp only [OrderbookUtils.vwapFill, List.filter_nil, List.map_nil, List.sum_nil]
      omega
  | cons a rest ih =>
      intro t ht
      obtain ⟨p, q⟩ := a
      rw [OrderbookUtils.vwapFill]
      split_ifs with h1 h2
      · rw [ih t ht]
        rw [List.filter_cons_of_neg (by simp; omega)]
      · omega
      · have hq : 0 < q := by omega
        rw [List.filter_cons_of_pos (by simpa using hq)]
        simp only [List.map_cons, List.sum_cons]
        have hrest := posDepthSum_nonneg rest
        rcases le_or_lt t q with hle | hlt
        · have : t - min q t = 0 := by omega
          rw [this, vwapFill_zero rest 0 (le_refl 0)]
          omega
        · have hpos : 0 < t - min q t := by omega
          rw [ih (t - min q t) hpos]
          omega

/-- The fill loop's totals are the sums over the consumed levels. -/
lemma vwapFill_eq_consumed : ∀ (ls : List (ℤ × ℤ)) (t : ℤ),
    OrderbookUtils.vwapFill ls t =
      (((OrderbookUtils.vwapConsumed ls t).map (fun r => r.1 * r.2)).sum,
       ((OrderbookUtils.vwapConsumed ls t).map Prod.snd).sum) := by
  intro ls
  induction ls with
  | nil => intro t; rfl
  | cons a rest ih =>
      intro t
      obtain ⟨p, q⟩ := a
      rw [OrderbookUtils.vwapFill, OrderbookUtils.vwapConsumed]
      split_ifs with h1 h2
      · exact ih t
      · rfl
      · simp only [List.map_cons, List.sum_cons]
        rw [ih (t - min q t)]


/-- Every consumed level has a positive fill quantity. -/
lemma vwapConsumed_pos : ∀ (ls : List (ℤ × ℤ)) (t : ℤ),
    ∀ r ∈ OrderbookUtils.vwapConsumed ls t, 0 < r.2 := by
  intro ls
  induction ls with
  | nil => intro t r hr; cases hr
  | cons a rest ih =>
      intro t r hr
      obtain ⟨p, q⟩ := a
      rw [OrderbookUtils.vwapConsumed] at hr
      split_ifs at hr with h1 h2
      · exact ih t r hr
      · cases hr
      · rcases List.mem_cons.mp hr with rfl | hr2
        · dsimp only
          omega
        · exact ih _ r hr2

/-- A positively-weighted sum lies between its extreme prices scaled by
the total weight. -/
lemma weighted_bounds : ∀ (cs : List (ℤ × ℤ)), cs ≠ [] → (∀ r ∈ cs, 0 < r.2) →
    ∃ lo hi, lo ∈ cs.map Prod.fst ∧ hi ∈ cs.map Prod.fst ∧
      lo * (cs.map Prod.snd).sum ≤ (cs.map (fun r => r.1 * r.2)).sum ∧
      (cs.map (fun r => r.1 * r.2)).sum ≤ hi * (cs.map Prod.snd).sum := by
  intro cs
  induction cs with
  | nil => intro h; exact absurd rfl h
  | cons a rest ih =>
      intro _ hpos
      rcases eq_or_ne rest [] with rfl | hne
      · refine ⟨a.1, a.1, by simp, by simp, ?_, ?_⟩ <;> simp
      · obtain ⟨lo, hi, hlomem, hhimem, hlo, hhi⟩ :=
          ih hne (fun r hr => hpos r (List.mem_cons_of_mem a hr))
        have ha2 : 0 < a.2 := hpos a (List.mem_cons_self a rest)
        have hS : 0 ≤ (rest.map Prod.snd).sum := by
          apply List.sum_nonneg
          intro x hx
          obtain ⟨r, hr, rfl⟩ := List.mem_map.mp hx
          exact (hpos r (List.mem_cons_of_mem a hr)).le
        refine ⟨min a.1 lo, max a.1 hi, ?_, ?_, ?_, ?_⟩
        · rcases le_total a.1 lo with h | h
          · simp [min_eq_left h]
          · rw [min_eq_right h]
            exact List.mem_cons_of_mem _ hlomem
        · rcases le_total a.1 hi with h | h
          · rw [max_eq_right h]
            exact List.mem_cons_of_mem _ hhimem
          · simp [max_eq_left h]
        · simp only [List.map_cons, List.sum_cons]
          have t1 : min a.1 lo * a.2 ≤ a.1 * a.2 :=
            mul_le_mul_of_nonneg_right (min_le_left _ _) ha2.le
          have t2 : min a.1 lo * (rest.map Prod.snd).sum ≤
              lo * (rest.map Prod.snd).sum :=
            mul_le_mul_of_nonneg_right (min_le_right _ _) hS
          nlinarith
        · simp only [List.map_cons, List.sum_cons]
          have t1 : a.1 * a.2 ≤ max a.1 hi * a.2 :=
            mul_le_mul_of_nonneg_right (le_max_left _ _) ha2.le
          have t2 : hi * (rest.map Prod.snd).sum ≤
              max a.1 hi * (rest.map Prod.snd).sum :=
            mul_le_mul_of_nonneg_right (le_max_right _ _) hS
          nlinarith

/-- Sorting does not change the total positive quantity. -/
lemma posSum_perm (asc : Bool) (levels : List (ℤ × ℤ)) :
    (((sortByPrice (!asc) levels).filter (fun r => 0 < r.2)).map Prod.snd).sum =
      ((levels.filter (fun r => 0 < r.2)).map Prod.snd).sum :=
  (((sortByPrice_perm (!asc) levels).filter _).map _).sum_eq

/-- `compute_vwap` returns `none` exactly when the target is non-positive
or no level has positive quantity. -/
lemma compute_vwap_none_iff :
    ∀ (price_levels : List (ℤ × ℤ)) (target_qty : ℤ) (ascending : Bool),
      OrderbookUtils.compute_vwap price_levels target_qty ascending = none ↔
        target_qty ≤ 0 ∨ ∀ r ∈ price_levels, r.2 ≤ 0 := by
    intro levels t asc
    rw [OrderbookUtils.compute_vwap]
    by_cases ht : t ≤ 0
    · simp [ht]
    · rw [if_neg ht]
      dsimp only
      rw [vwapFill_filled _ t (by omega), posSum_perm]
      have hS := posDepthSum_nonneg levels
      by_cases hpos : ∃ r ∈ levels, 0 < r.2
      · have h1 : 0 < ((levels.filter (fun r => 0 < r.2)).map Prod.snd).sum :=
          (posDepthSum_pos_iff levels).mpr hpos
        rw [if_neg (by omega)]
        simp only [reduceCtorEq, false_iff]
        push_neg
        exact ⟨by omega, by obtain ⟨r, hr, h2⟩ := hpos; exact ⟨r, hr, h2⟩⟩
      · have h1 : ¬ (0 < ((levels.filter (fun r => 0 < r.2)).map Prod.snd).sum) :=
          fun hc => hpos ((posDepthSum_pos_iff levels).mp hc)
        rw [if_pos (by omega)]
        simp only [true_iff]
        right
        intro r hr
        by_contra hc
        exact hpos ⟨r, hr, by omega⟩

/-- A successful `compute_vwap` fills `min(target, total positive
quantity)` and its average lies between the minimum and maximum prices of
the levels consumed. -/
lemma compute_vwap_some_spec :
    ∀ (price_levels : List (ℤ × ℤ)) (target_qty : ℤ) (ascending : Bool)
      (v : ℚ) (f : ℤ),
      OrderbookUtils.compute_vwap price_levels target_qty ascending = some (v, f) →
        f = min target_qty
            (((price_levels.filter (fun r => 0 < r.2)).map Prod.snd).sum) ∧
        ∃ lo hi,
          lo ∈ (OrderbookUtils.vwapConsumed
                  (sortByPrice (!ascending) price_levels) target_qty).map Prod.fst ∧
          hi ∈ (OrderbookUtils.vwapConsumed
                  (sortByPrice (!ascending) price_levels) target_qty).map Prod.fst ∧
          (lo : ℚ) ≤ v ∧ v ≤ (hi : ℚ) := by
  intro levels t asc v f h
  rw [OrderbookUtils.compute_vwap] at h
  split_ifs at h with ht
  dsimp only at h
  split_ifs at h with hf
  rw [Option.some.injEq, Prod.mk.injEq] at h
  obtain ⟨hv, hfeq⟩ := h
  subst hfeq
  constructor
  · rw [vwapFill_filled _ t (by omega), posSum_perm]
  · set sorted := sortByPrice (!asc) levels with hsorted
    have hcons := vwapFill_eq_consumed sorted t
    have hfpos : 0 < (OrderbookUtils.vwapFill sorted t).2 := by omega
    have hcne : OrderbookUtils.vwapConsumed sorted t ≠ [] := by
      intro hc
      rw [hcons, hc] at hfpos
      simp at hfpos
    obtain ⟨lo, hi, hlomem, hhimem, hlo, hhi⟩ :=
      weighted_bounds (OrderbookUtils.vwapConsumed sorted t) hcne
        (vwapConsumed_pos sorted t)
    refine ⟨lo, hi, hlomem, hhimem, ?_, ?_⟩
    · rw [← hv]
      rw [hcons]
      dsimp only
      have hSpos : (0:ℚ) <
          (((OrderbookUtils.vwapConsumed sorted t).map Prod.snd).sum : ℚ) := by
        have : 0 < ((OrderbookUtils.vwapConsumed sorted t).map Prod.snd).sum := by
          rw [hcons] at hfpos
          exact hfpos
        exact_mod_cast this
      rw [le_div_iff₀ hSpos]
      exact_mod_cast hlo
    · rw [← hv]
      rw [hcons]
      dsimp only
      have hSpos : (0:ℚ) <
          (((OrderbookUtils.vwapConsumed sorted t).map Prod.snd).sum : ℚ) := by
        have : 0 < ((OrderbookUtils.vwapConsumed sorted t).map Prod.snd).sum := by
          rw [hcons] at hfpos
          exact hfpos
        exact_mod_cast this
      rw [div_le_iff₀ hSpos]
      exact_mod_cast hhi

/-- Complementing prices (`100 - p`) preserves the total positive
quantity. -/
lemma complemented_posSum (l : List (ℤ × ℤ)) :
    ((((l.filter (fun r => 0 < r.2)).map
          (fun row => ((100 - row.1 : ℤ), row.2))).filter
        (fun r => 0 < r.2)).map Prod.snd).sum =
      ((l.filter (fun r => 0 < r.2)).map Prod.snd).sum := by
  rw [List.filter_map]
  have hself : (l.filter (fun r => 0 < r.2)).filter
      ((fun (r : ℤ × ℤ) => decide (0 < r.2)) ∘ (fun row => ((100 - row.1 : ℤ), row.2))) =
      l.filter (fun r => 0 < r.2) := by
    apply List.filter_eq_self.mpr
    intro a ha
    have h2 := List.mem_filter.mp ha
    exact h2.2
  rw [hself, List.map_map]
  rfl

/-- The effective YES-ask wrapper inherits the `compute_vwap`
characterization on the complemented NO book. -/
lemma effective_yes_spec :
    ∀ (orderbook : Book) (qty : ℤ),
      (OrderbookUtils.effective_yes_ask_vwap orderbook qty = none ↔
         qty ≤ 0 ∨ ∀ r ∈ orderbook.no, r.2 ≤ 0) ∧
      (∀ (v : ℚ) (f : ℤ),
         OrderbookUtils.effective_yes_ask_vwap orderbook qty = some (v, f) →
         f = min qty (((orderbook.no.filter (fun r => 0 < r.2)).map Prod.snd).sum)) := by
  intro book qty
  rw [OrderbookUtils.effective_yes_ask_vwap]
  by_cases hemp : OrderbookUtils.normalize_levels book.no = []
  · rw [if_pos hemp]
    rw [OrderbookUtils.normalize_levels, List.filter_eq_nil_iff] at hemp
    constructor
    · simp only [true_iff]
      right
      intro r hr
      have := hemp r hr
      simpa using this
    · intro v f hvf
      cases hvf
  · rw [if_neg hemp]
    have hpos : ∃ r ∈ book.no, 0 < r.2 := by
      by_contra hc
      push_neg at hc
      apply hemp
      rw [OrderbookUtils.normalize_levels, List.filter_eq_nil_iff]
      intro a ha
      have := hc a ha
      simpa using this
    constructor
    · rw [compute_vwap_none_iff]
      constructor
      · rintro (hq | hall)
        · exact Or.inl hq
        · exfalso
          obtain ⟨r, hr, hr2⟩ := hpos
          have hmem : ((100 - r.1 : ℤ), r.2) ∈
              (OrderbookUtils.normalize_levels book.no).map
                (fun row => ((100 - row.1 : ℤ), row.2)) := by
            apply List.mem_map_of_mem
            rw [OrderbookUtils.normalize_levels]
            rw [List.mem_filter]
            exact ⟨hr, by simpa using hr2⟩
          have := hall _ hmem
          dsimp only at this
          omega
      · rintro (hq | hall)
        · exact Or.inl hq
        · exfalso
          obtain ⟨r, hr, hr2⟩ := hpos
          have := hall r hr
          omega
    · intro v f hvf
      have := (compute_vwap_some_spec _ qty true v f hvf).1
      rw [this, OrderbookUtils.normalize_levels]
      rw [complemented_posSum]

/-- The effective NO-ask wrapper inherits the `compute_vwap`
characterization on the complemented YES book. -/
lemma effective_no_spec :
    ∀ (orderbook : Book) (qty : ℤ),
      (OrderbookUtils.effective_no_ask_vwap orderbook qty = none ↔
         qty ≤ 0 ∨ ∀ r ∈ orderbook.yes, r.2 ≤ 0) ∧
      (∀ (v : ℚ) (f : ℤ),
         OrderbookUtils.effective_no_ask_vwap orderbook qty = some (v, f) →
         f = min qty (((orderbook.yes.filter (fun r => 0 < r.2)).map Prod.snd).sum)) := by
  intro book qty
  rw [OrderbookUtils.effective_no_ask_vwap]
  by_cases hemp : OrderbookUtils.normalize_levels book.yes = []
  · rw [if_pos hemp]
    rw [OrderbookUtils.normalize_levels, List.filter_eq_nil_iff] at hemp
    constructor
    · simp only [true_iff]
      right
      intro r hr
      have := hemp r hr
      simpa using this
    · intro v f hvf
      cases hvf
  · rw [if_neg hemp]
    have hpos : ∃ r ∈ book.yes, 0 < r.2 := by
      by_contra hc
      push_neg at hc
      apply hemp
      rw [OrderbookUtils.normalize_levels, List.filter_eq_nil_iff]
      intro a ha
      have := hc a ha
      simpa using this
    constructor
    · rw [compute_vwap_none_iff]
      constructor
      · rintro (hq | hall)
        · exact Or.inl hq
        · exfalso
          obtain ⟨r, hr, hr2⟩ := hpos
          have hmem : ((100 - r.1 : ℤ), r.2) ∈
              (OrderbookUtils.normalize_levels book.yes).map
                (fun row => ((100 - row.1 : ℤ), row.2)) := by
            apply List.mem_map_of_mem
            rw [OrderbookUtils.normalize_levels]
            rw [List.mem_filter]
            exact ⟨hr, by simpa using hr2⟩
          have := hall _ hmem
          dsimp only at this
          omega
      · rintro (hq | hall)
        · exact Or.inl hq
        · exfalso
          obtain ⟨r, hr, hr2⟩ := hpos
          have := hall r hr
          omega
    · intro v f hvf
      have := (compute_vwap_some_spec _ qty true v f hvf).1
      rw [this, OrderbookUtils.normalize_levels]
      rw [complemented_posSum]

/-- C10: `compute_vwap` returns none iff the target is non-positive or no
level has positive quantity; otherwise it fills
`min(target, total positive quantity)` — a thin book yields a partial
fill, not none — with an average between the minimum and maximum consumed
prices; and the effective yes/no ask wrappers inherit this on the
complemented opposite-side book. -/
theorem claim_C10_vwap :
    (∀ (price_levels : List (ℤ × ℤ)) (target_qty : ℤ) (ascending : Bool),
       OrderbookUtils.compute_vwap price_levels target_qty ascending = none ↔
         target_qty ≤ 0 ∨ ∀ r ∈ price_levels, r.2 ≤ 0) ∧
    (∀ (price_levels : List (ℤ × ℤ)) (target_qty : ℤ) (ascending : Bool)
       (v : ℚ) (f : ℤ),
       OrderbookUtils.compute_vwap price_levels target_qty ascending = some (v, f) →
         f = min target_qty
             (((price_levels.filter (fun r => 0 < r.2)).map Prod.snd).sum) ∧
         ∃ lo hi,
           lo ∈ (OrderbookUtils.vwapConsumed
                   (sortByPrice (!ascending) price_levels) target_qty).map Prod.fst ∧
           hi ∈ (OrderbookUtils.vwapConsumed
                   (sortByPrice (!ascending) price_levels) target_qty).map Prod.fst ∧
           (lo : ℚ) ≤ v ∧ v ≤ (hi : ℚ)) ∧
    (∀ (orderbook : Book) (qty : ℤ),
       (OrderbookUtils.effective_yes_ask_vwap orderbook qty = none ↔
          qty ≤ 0 ∨ ∀ r ∈ orderbook.no, r.2 ≤ 0) ∧
       (∀ (v : ℚ) (f : ℤ),
          OrderbookUtils.effective_yes_ask_vwap orderbook qty = some (v, f) →
          f = min qty (((orderbook.no.filter (fun r => 0 < r.2)).map Prod.snd).sum))) ∧
    (∀ (orderbook : Book) (qty : ℤ),
       (OrderbookUtils.effective_no_ask_vwap orderbook qty = none ↔
          qty ≤ 0 ∨ ∀ r ∈ orderbook.yes, r.2 ≤ 0) ∧
       (∀ (v : ℚ) (f : ℤ),
          OrderbookUtils.effective_no_ask_vwap orderbook qty = some (v, f) →
          f = min qty (((orderbook.yes.filter (fun r => 0 < r.2)).map Prod.snd).sum))) :=
  ⟨compute_vwap_none_iff, compute_vwap_some_spec, effective_yes_spec,
   effective_no_spec⟩

/-- C10 witness: `compute_vwap [(30,5), (28,3)] 6` fills the full target
of 6 at an average between the consumed prices. -/
theorem claim_C10_vwap_witness :
    (6:ℤ) = min 6 ((([((30:ℤ), (5:ℤ)), (28, 3)].filter
        (fun r => 0 < r.2)).map Prod.snd).sum) ∧
    ∃ lo hi,
      lo ∈ (OrderbookUtils.vwapConsumed
              (sortByPrice (!true) [((30:ℤ), (5:ℤ)), (28, 3)]) 6).map Prod.fst ∧
      hi ∈ (OrderbookUtils.vwapConsumed
              (sortByPrice (!true) [((30:ℤ), (5:ℤ)), (28, 3)]) 6).map Prod.fst ∧
      (lo : ℚ) ≤ (((174:ℤ) : ℚ) / ((6:ℤ) : ℚ)) ∧ (((174:ℤ) : ℚ) / ((6:ℤ) : ℚ)) ≤ (hi : ℚ) :=
  claim_C10_vwap.2.1 [(30, 5), (28, 3)] 6 true (((174:ℤ) : ℚ) / ((6:ℤ) : ℚ)) 6 (by
    rw [OrderbookUtils.compute_vwap]
    norm_num [sortByPrice, insertByPrice, OrderbookUtils.vwapFill])

end KalshiProofs
